import Mathlib

/-!
Verification of the document-completion state machine of
`packages/lib/server-only/document/send-document.ts`.

The embedding models a single envelope aggregate (the envelope record, its
recipients, fields, signatures and audit log) as a `St` value.  The two
operations of the file, `sendDocument` and `completeDocumentWithToken`, are
translated as pure functions from a state and an argument record to either a
typed error (carrying the state at the moment of the throw, since audit rows
written before the throw stay committed) or a new state.

Besides the state, each operation produces a trace of `Event`s.  Every
database write is recorded in the trace tagged with the index of the prisma
transaction it ran in (`some 0` for the first `$transaction` block, `some 1`
for the second, `none` for writes outside any transaction), and job triggers,
emails and webhook emissions are recorded as events as well.  This makes
transaction grouping and side-effect dispatch order first-class and provable.

External collaborators that are not part of the sources (the prisma store,
PDF manipulation, email/job dispatch) are consumed as the spec directs.
Helper functions of the repository that the file imports but whose sources
are not available (`fieldsContainUnsignedRequiredField`,
`getIsRecipientsTurnToSign`, `isDocumentCompleted`, the derived auth
methods) are modelled from the spec, and say so in their doc comments.
-/

/-- `DocumentStatus` enum of the prisma client. -/
inductive DocumentStatus where
  | DRAFT
  | PENDING
  | COMPLETED
deriving Repr, DecidableEq

/-- `DocumentSigningOrder` enum of the prisma client. -/
inductive SigningOrder where
  | PARALLEL
  | SEQUENTIAL
deriving Repr, DecidableEq

/-- `RecipientRole` enum of the prisma client (the roles the core branches on). -/
inductive RecipientRole where
  | SIGNER
  | CC
  | APPROVER
  | VIEWER
deriving Repr, DecidableEq

/-- `SigningStatus` enum of the prisma client. -/
inductive SigningStatus where
  | NOT_SIGNED
  | SIGNED
  | REJECTED
deriving Repr, DecidableEq

/-- `SendStatus` enum of the prisma client. -/
inductive SendStatus where
  | NOT_SENT
  | SENT
deriving Repr, DecidableEq

/-- DocField types; the auto-sign loop branches on `SIGNATURE` / `FREE_SIGNATURE`. -/
inductive FieldType where
  | SIGNATURE
  | FREE_SIGNATURE
  | TEXT
  | DATE
  | CHECKBOX
deriving Repr, DecidableEq

/-- Audit-log entry kinds used by `send-document.ts`
(`DOCUMENT_AUDIT_LOG_TYPE.*`). -/
inductive AuditType where
  | DOCUMENT_SENT
  | FIELD_INSERTED
  | RECIPIENT_COMPLETED
  | TFA_FAILED
  | TFA_VALIDATED
  | RECIPIENT_UPDATED
deriving Repr, DecidableEq

/-- Request metadata threaded into audit entries
(`RequestMetadata` / `ApiRequestMetadata`): only the ip address is
observable in the modelled audit entries. -/
structure ReqMeta where
  ipAddress : Option String
deriving Repr, DecidableEq

/-- A `Recipient` row.  `derivedActionAuth` is the precomputed result of
`extractDocumentAuthMethods(...).derivedRecipientActionAuth` for this
recipient, and is modelled from the spec as an opaque list of auth-method
names (the helper's source is not part of the sources). -/
structure Recipient where
  id : Nat
  token : Nat
  role : RecipientRole
  signingOrder : Option Nat
  signingStatus : SigningStatus
  sendStatus : SendStatus
  name : String
  email : String
  signedAt : Option Nat
  derivedActionAuth : List String
deriving Repr, DecidableEq

/-- A `Field` row.  `required` is the derived required-ness of the field.
Modelled from the spec: the repository derives it from the field type and
recipient role inside `fieldsContainUnsignedRequiredField`, whose source is
not available. -/
structure DocField where
  id : Nat
  recipientId : Nat
  type : FieldType
  inserted : Bool
  autosign : Bool
  required : Bool
deriving Repr, DecidableEq

/-- A `Signature` row created for a filled signature field. -/
structure Signature where
  fieldId : Nat
  recipientId : Nat
  typedSignature : String
deriving Repr, DecidableEq

/-- A `DocumentAuditLog` row, restricted to what the claims observe:
the entry kind, the recipient and field it concerns, the ip address the
metadata carried, and the action-auth claims recorded in its data
(`none` when the entry kind has no action-auth slot at all). -/
structure AuditEntry where
  type : AuditType
  recipientId : Option Nat
  fieldId : Option Nat
  ipAddress : Option String
  actionAuth : Option (List String)
deriving Repr, DecidableEq

/-- The `Envelope` row together with its `documentMeta` settings.
`requiresTwoFactor` is modelled from the spec: it stands for
`derivedRecipientAccessAuth.includes(TWO_FACTOR_AUTH)`, the derived
access-auth policy of the envelope (the deriving helper's source is not
available).  `emailEnabled` is the derived
`recipientSigningRequest` email setting. -/
structure Envelope where
  status : DocumentStatus
  signingOrder : SigningOrder
  allowDictateNextSigner : Bool
  requiresTwoFactor : Bool
  emailEnabled : Bool
  hasEnvelopeItems : Bool
deriving Repr, DecidableEq

/-- The whole aggregate the two operations read and write. -/
structure St where
  envelope : Envelope
  recipients : List Recipient
  fields : List DocField
  signatures : List Signature
  auditLog : List AuditEntry
deriving Repr, DecidableEq

/-- Job names triggered through `jobs.triggerJob`. -/
inductive JobName where
  | signingRequested (recipientId : Nat)
  | recipientSignedEmail (recipientId : Nat)
  | sealDocument
deriving Repr, DecidableEq

/-- Webhook events emitted through `triggerWebhook`. -/
inductive WebhookKind where
  | DOCUMENT_SENT
  | DOCUMENT_SIGNED
deriving Repr, DecidableEq

/-- An observable step of an operation.  Database writes carry the index of
the prisma `$transaction` block they ran in (`none` when the write happened
outside any transaction). -/
inductive Event where
  | recipientSigned (txn : Option Nat) (recipientId : Nat)
  | recipientSent (txn : Option Nat) (recipientId : Nat)
  | fieldInserted (txn : Option Nat) (fieldId : Nat)
  | signatureCreated (txn : Option Nat) (fieldId : Nat) (recipientId : Nat)
  | audit (txn : Option Nat) (entry : AuditEntry)
  | envelopeStatus (txn : Option Nat) (status : DocumentStatus)
  | job (txn : Option Nat) (name : JobName)
  | pendingEmail (recipientId : Nat)
  | webhook (kind : WebhookKind)
deriving Repr, DecidableEq

/-- Trace of events. -/
abbrev Tr := List Event

/-- A state together with the trace accumulated so far. -/
abbrev M := St × Tr

/-- `prisma.recipient.update({ where: { id }, data: { signingStatus: SIGNED,
signedAt } })` plus its trace event. -/
def setRecipientSignedM (txn : Option Nat) (rid : Nat) (now : Nat) (x : M) : M :=
  ({ x.1 with recipients := x.1.recipients.map fun r =>
      if r.id = rid then { r with signingStatus := SigningStatus.SIGNED, signedAt := some now } else r },
   x.2 ++ [Event.recipientSigned txn rid])

/-- `prisma.recipient.update({ where: { id }, data: { sendStatus: SENT, ...maybe
name/email rewrite } })` plus its trace event (the dictated-next-signer rewrite
is folded into the same update, as in the source). -/
def setRecipientSentM (txn : Option Nat) (rid : Nat) (rename : Option (String × String)) (x : M) : M :=
  ({ x.1 with recipients := x.1.recipients.map fun r =>
      if r.id = rid then
        { r with sendStatus := SendStatus.SENT,
                 name := (rename.map Prod.fst).getD r.name,
                 email := (rename.map Prod.snd).getD r.email }
      else r },
   x.2 ++ [Event.recipientSent txn rid])

/-- `prisma.field.update({ where: { id }, data: { inserted: true } })` plus its
trace event. -/
def setFieldInsertedM (txn : Option Nat) (fid : Nat) (x : M) : M :=
  ({ x.1 with fields := x.1.fields.map fun f =>
      if f.id = fid then { f with inserted := true } else f },
   x.2 ++ [Event.fieldInserted txn fid])

/-- `prisma.signature.create` plus its trace event. -/
def createSignatureM (txn : Option Nat) (fid rid : Nat) (typed : String) (x : M) : M :=
  ({ x.1 with signatures := x.1.signatures ++ [{ fieldId := fid, recipientId := rid, typedSignature := typed }] },
   x.2 ++ [Event.signatureCreated txn fid rid])

/-- `prisma.documentAuditLog.create` plus its trace event. -/
def createAuditM (txn : Option Nat) (e : AuditEntry) (x : M) : M :=
  ({ x.1 with auditLog := x.1.auditLog ++ [e] }, x.2 ++ [Event.audit txn e])

/-- `prisma.envelope.update({ data: { status } })` plus its trace event. -/
def setEnvelopeStatusM (txn : Option Nat) (st : DocumentStatus) (x : M) : M :=
  ({ x.1 with envelope := { x.1.envelope with status := st } },
   x.2 ++ [Event.envelopeStatus txn st])

/-- `jobs.triggerJob` — fire-and-forget, trace only. -/
def triggerJobM (txn : Option Nat) (j : JobName) (x : M) : M :=
  (x.1, x.2 ++ [Event.job txn j])

/-- `sendPendingEmail` — external dispatch, trace only. -/
def pendingEmailM (rid : Nat) (x : M) : M :=
  (x.1, x.2 ++ [Event.pendingEmail rid])

/-- `triggerWebhook` — external dispatch, trace only. -/
def webhookM (k : WebhookKind) (x : M) : M :=
  (x.1, x.2 ++ [Event.webhook k])

/-- Modelled from the spec: `fieldsContainUnsignedRequiredField` of
`@documenso/lib/utils/advanced-fields-helpers` (source not available).
Spec 4.1 / 8: true iff some required field of the input has
`inserted = false`. -/
def fieldsContainUnsignedRequiredField (fs : List DocField) : Bool :=
  fs.any fun f => f.required && !f.inserted

/-- The composite recipient order used by every recipient query of the file:
`orderBy: [{ signingOrder: asc nulls last }, { id: asc }]`. -/
def recipientLe (a b : Recipient) : Bool :=
  match a.signingOrder, b.signingOrder with
  | some x, some y => decide (x < y) || (decide (x = y) && decide (a.id ≤ b.id))
  | some _, none => true
  | none, some _ => false
  | none, none => decide (a.id ≤ b.id)

/-- Insertion step of the insertion sort realizing the recipient order. -/
def insertRecipient (r : Recipient) : List Recipient → List Recipient
  | [] => [r]
  | x :: xs => if recipientLe r x then r :: x :: xs else x :: insertRecipient r xs

/-- Recipients sorted by `(signingOrder asc nulls last, id asc)` — the order
every recipient query of the file requests from the store. -/
def sortRecipients : List Recipient → List Recipient
  | [] => []
  | x :: xs => insertRecipient x (sortRecipients xs)

/-- `prisma.recipient.findUnique({ where: { id } })` over the aggregate. -/
def findRecipient (rs : List Recipient) (rid : Nat) : Option Recipient :=
  rs.find? fun r => decide (r.id = rid)

/-- Modelled from the spec: `getIsRecipientsTurnToSign` of
`../recipient/get-is-recipient-turn` (source not available).  Spec 4.3:
filter to recipients with signing status NOT_SIGNED and role other than CC,
order by (signing order asc nulls last, id asc), return the first. -/
def activeRecipient (rs : List Recipient) : Option Recipient :=
  ((sortRecipients rs).filter fun r =>
    decide (r.signingStatus = SigningStatus.NOT_SIGNED ∧ r.role ≠ RecipientRole.CC)).head?

/-- Modelled from the spec: `isRecipientsTurn` is true iff the recipient is
the active recipient of its envelope. -/
def isRecipientsTurn (rs : List Recipient) (r : Recipient) : Bool :=
  match activeRecipient rs with
  | some a => decide (a.id = r.id)
  | none => false

/-- Modelled from the spec: `isDocumentCompleted` of `../../utils/document`
(source not available): the status is COMPLETED. -/
def isDocumentCompleted (st : DocumentStatus) : Bool :=
  decide (st = DocumentStatus.COMPLETED)

/-- `field.recipient.name || field.recipient.email` — JS `||` treats the
empty string as falsy. -/
def displayName (r : Recipient) : String :=
  if r.name = "" then r.email else r.name

/-- The auto-sign field query of both operations:
`tx.field.findMany({ where: { envelopeId, autosign: true, inserted: false },
include: { recipient: true } })`.  The included relation is resolved at query
time, so each selected field is paired with its owner as found in the state
at the start of the resolver. -/
def autoSignTargets (s : St) : List (DocField × Option Recipient) :=
  (s.fields.filter fun f => f.autosign && !f.inserted).map fun f =>
    (f, findRecipient s.recipients f.recipientId)

/-- Ids of the selected fields whose owning recipient resolved. -/
def processedFieldIds (ts : List (DocField × Option Recipient)) : List Nat :=
  ts.filterMap fun p => match p.2 with
    | some _ => some p.1.id
    | none => none

/-- The `recipientsWithAutoSignedFields` set: insertion-ordered, deduplicated
recipient ids of the processed auto-sign fields. -/
def autoSignRecipientIds (ts : List (DocField × Option Recipient)) : List Nat :=
  ts.foldl (fun acc p => match p.2 with
    | none => acc
    | some _ => if acc.contains p.1.recipientId then acc else acc ++ [p.1.recipientId]) []

/-- Body of the `for (const field of autoSignFields)` loop: create a
`Signature` for signature-type fields, mark the field inserted, and write a
`FIELD_INSERTED` audit entry with the ip address explicitly omitted. -/
def autoSignFieldStep (txn : Option Nat) (x : M) (p : DocField × Option Recipient) : M :=
  match p.2 with
  | none => x
  | some owner =>
    let y := if p.1.type = FieldType.SIGNATURE ∨ p.1.type = FieldType.FREE_SIGNATURE then
        createSignatureM txn p.1.id p.1.recipientId (displayName owner) x
      else x
    let z := setFieldInsertedM txn p.1.id y
    createAuditM txn
      { type := AuditType.FIELD_INSERTED, recipientId := some p.1.recipientId,
        fieldId := some p.1.id, ipAddress := none, actionAuth := none } z

/-- The `RECIPIENT_COMPLETED` audit entry written for an auto-signed
recipient: ip omitted, `actionAuth: []`. -/
def autoSignedCompletionAudit (rid : Nat) : AuditEntry :=
  { type := AuditType.RECIPIENT_COMPLETED, recipientId := some rid, fieldId := none,
    ipAddress := none, actionAuth := some [] }

/-- Body of the recipient loop of `completeDocumentWithToken`'s resolver:
reload the recipient, skip it when absent or already SIGNED, reload its
fields, and when no unsigned required field remains mark it SIGNED and write
the auto-sign completion audit entry. -/
def autoSignRecipientStep (txn : Option Nat) (now : Nat) (x : M) (rid : Nat) : M :=
  match findRecipient x.1.recipients rid with
  | none => x
  | some rc =>
    if rc.signingStatus = SigningStatus.SIGNED then x
    else
      let rfields := x.1.fields.filter fun f => decide (f.recipientId = rid)
      if fieldsContainUnsignedRequiredField rfields then x
      else
        createAuditM txn (autoSignedCompletionAudit rid) (setRecipientSignedM txn rid now x)

/-- The auto-sign resolver as it appears inside the transaction of
`completeDocumentWithToken` (field loop, then recipient loop with reloads). -/
def resolveAutoSign (txn : Option Nat) (now : Nat) (x : M) : M :=
  let targets := autoSignTargets x.1
  let x1 := targets.foldl (autoSignFieldStep txn) x
  (autoSignRecipientIds targets).foldl (autoSignRecipientStep txn now) x1

/-- Body of the recipient loop of `sendDocument`'s resolver: the recipient is
looked up in the pre-transaction snapshot `envelope.recipients` (and its
SIGNED check reads that snapshot), the fields are reloaded from the current
state. -/
def autoSignRecipientStepSnap (txn : Option Nat) (now : Nat) (snap : List Recipient)
    (x : M) (rid : Nat) : M :=
  match findRecipient snap rid with
  | none => x
  | some rc =>
    let rfields := x.1.fields.filter fun f => decide (f.recipientId = rid)
    if fieldsContainUnsignedRequiredField rfields = false ∧ rc.signingStatus ≠ SigningStatus.SIGNED then
      createAuditM txn (autoSignedCompletionAudit rid) (setRecipientSignedM txn rid now x)
    else x

/-- The auto-sign resolver as it appears inside the transaction of
`sendDocument` (guarded by `autoSignFields.length > 0`, recipient SIGNED
check against the snapshot). -/
def resolveAutoSignSnap (txn : Option Nat) (now : Nat) (snap : List Recipient) (x : M) : M :=
  let targets := autoSignTargets x.1
  if 0 < targets.length then
    let x1 := targets.foldl (autoSignFieldStep txn) x
    (autoSignRecipientIds targets).foldl (autoSignRecipientStepSnap txn now snap) x1
  else x

/-- Arguments of `completeDocumentWithToken`.  `accessAuthValid` models the
externally validated second factor: `none` when `accessAuthOptions` was not
supplied, `some b` when supplied and `isRecipientAuthorized` returns `b`. -/
structure CompleteArgs where
  token : Nat
  accessAuthValid : Option Bool
  meta : Option ReqMeta
  nextSigner : Option (String × String)
  now : Nat
deriving Repr, DecidableEq

/-- The distinct throw sites of `completeDocumentWithToken`. -/
inductive CError where
  | notFound
  | notPending
  | alreadySigned
  | alreadyRejected
  | notRecipientsTurn
  | unsignedFields
  | accessAuthRequired
  | twoFactorFailed
deriving Repr, DecidableEq

/-- The `RECIPIENT_COMPLETED` audit entry written for the human completion:
it carries the request metadata's ip address and the derived action-auth
claims. -/
def humanCompletionAudit (r : Recipient) (meta : Option ReqMeta) : AuditEntry :=
  { type := AuditType.RECIPIENT_COMPLETED, recipientId := some r.id, fieldId := none,
    ipAddress := meta.bind (fun m => m.ipAddress), actionAuth := some r.derivedActionAuth }

/-- The 2FA audit entries (`DOCUMENT_ACCESS_AUTH_2FA_*`): created with no
metadata and no action-auth data, outside any transaction. -/
def tfaAudit (t : AuditType) (r : Recipient) : AuditEntry :=
  { type := t, recipientId := some r.id, fieldId := none, ipAddress := none, actionAuth := none }

/-- The first `prisma.$transaction` block of `completeDocumentWithToken`
(transaction index 0): mark the recipient SIGNED, write the human
`RECIPIENT_COMPLETED` audit entry, and — when every non-autosign field of the
envelope is complete — run the auto-sign resolver. -/
def completionTx (a : CompleteArgs) (r : Recipient) (x : M) : M :=
  let x1 := setRecipientSignedM (some 0) r.id a.now x
  let x2 := createAuditM (some 0) (humanCompletionAudit r a.meta) x1
  let nonAuto := x2.1.fields.filter fun f => !f.autosign
  if fieldsContainUnsignedRequiredField nonAuto then x2
  else resolveAutoSign (some 0) a.now x2

/-- The second `prisma.$transaction` block of `completeDocumentWithToken`
(transaction index 1): optional dictated-next-signer audit entry and rename,
mark the next recipient's send status SENT, and trigger the
`send.signing.requested.email` job (the trigger sits inside this transaction
in the source). -/
def advanceTx (a : CompleteArgs) (next : Recipient) (allowDictate : Bool) (x : M) : M :=
  let dictate := allowDictate ∧ a.nextSigner.isSome = true
  let x1 := if dictate then
      createAuditM (some 1)
        { type := AuditType.RECIPIENT_UPDATED, recipientId := some next.id, fieldId := none,
          ipAddress := a.meta.bind (fun m => m.ipAddress), actionAuth := none } x
    else x
  let x2 := setRecipientSentM (some 1) next.id (if dictate then a.nextSigner else none) x1
  triggerJobM (some 1) (JobName.signingRequested next.id) x2

/-- The precondition and access-auth phase of `completeDocumentWithToken`:
everything up to and including the 2FA block, in source order.  On success it
returns the matched recipient together with the state and the trace of the
audit rows the 2FA block may have written (those writes run outside any
transaction and stay committed). -/
def completeChecks (s : St) (a : CompleteArgs) : Except (CError × M) (Recipient × M) :=
  match (s.recipients.filter fun r => decide (r.token = a.token)).head? with
  | none => Except.error (CError.notFound, s, [])
  | some r =>
    if s.envelope.status ≠ DocumentStatus.PENDING then
      Except.error (CError.notPending, s, [])
    else if r.signingStatus = SigningStatus.SIGNED then
      Except.error (CError.alreadySigned, s, [])
    else if r.signingStatus = SigningStatus.REJECTED then
      Except.error (CError.alreadyRejected, s, [])
    else if s.envelope.signingOrder = SigningOrder.SEQUENTIAL ∧ isRecipientsTurn s.recipients r = false then
      Except.error (CError.notRecipientsTurn, s, [])
    else if fieldsContainUnsignedRequiredField (s.fields.filter fun f => decide (f.recipientId = r.id)) then
      Except.error (CError.unsignedFields, s, [])
    else if s.envelope.requiresTwoFactor then
      match a.accessAuthValid with
      | none => Except.error (CError.accessAuthRequired, s, [])
      | some valid =>
        if valid then
          Except.ok (r, createAuditM none (tfaAudit AuditType.TFA_VALIDATED r) (s, []))
        else
          Except.error (CError.twoFactorFailed, createAuditM none (tfaAudit AuditType.TFA_FAILED r) (s, []))
    else Except.ok (r, (s, []))

/-- The pending-recipient query of `completeDocumentWithToken` after the
first transaction: recipients with signing status other than SIGNED and role
other than CC, in the composite order.  When nonempty, `sendPendingEmail` is
dispatched and — under SEQUENTIAL order — the advancement transaction runs
for its head.  The signing order and the dictate-next-signer flag are read
from the envelope in `x`, which nothing before this phase has changed. -/
def advancePhase (a : CompleteArgs) (r : Recipient) (x : M) : M :=
  match ((sortRecipients x.1.recipients).filter fun p =>
      decide (p.signingStatus ≠ SigningStatus.SIGNED ∧ p.role ≠ RecipientRole.CC)).head? with
  | none => x
  | some next =>
    if x.1.envelope.signingOrder = SigningOrder.SEQUENTIAL then
      advanceTx a next x.1.envelope.allowDictateNextSigner (pendingEmailM r.id x)
    else pendingEmailM r.id x

/-- The final all-signed check of `completeDocumentWithToken`: when every
recipient is SIGNED or CC, request the seal-document job. -/
def sealPhase (x : M) : M :=
  if x.1.recipients.all (fun p =>
      decide (p.signingStatus = SigningStatus.SIGNED ∨ p.role = RecipientRole.CC)) then
    triggerJobM none JobName.sealDocument x
  else x

/-- Everything of `completeDocumentWithToken` after the checks: the first
transaction, the `send.recipient.signed.email` job, the pending-recipient
phase with the sequential advancement transaction, the all-signed seal-job
check, and the `DOCUMENT_SIGNED` webhook. -/
def completeBody (a : CompleteArgs) (r : Recipient) (x0 : M) : M :=
  webhookM WebhookKind.DOCUMENT_SIGNED
    (sealPhase (advancePhase a r
      (triggerJobM none (JobName.recipientSignedEmail r.id) (completionTx a r x0))))

/-- `completeDocumentWithToken` of `send-document.ts`.  Errors carry the
state and trace at the moment of the throw (audit rows written before the
throw stay committed, everything written inside an aborted transaction does
not — no error is thrown from inside a transaction in this function). -/
def completeDocumentWithToken (s : St) (a : CompleteArgs) : Except (CError × M) M :=
  match completeChecks s a with
  | Except.error e => Except.error e
  | Except.ok (r, x0) => Except.ok (completeBody a r x0)

/-- Arguments of `sendDocument`. -/
structure SendArgs where
  sendEmail : Option Bool
  meta : ReqMeta
  now : Nat
deriving Repr, DecidableEq

/-- The distinct throw sites of `sendDocument`. -/
inductive SError where
  | noRecipients
  | alreadyCompleted
  | noEnvelopeItems
deriving Repr, DecidableEq

/-- The SEQUENTIAL branch of `sendDocument`'s to-notify computation, on the
already-sorted recipient list: keep the first NOT_SIGNED non-CC recipient.
The secondary send-status filter of the source is computed here exactly as
there — chained but not reassigned, so its result is dropped. -/
def sequentialToNotify (sorted : List Recipient) : List Recipient :=
  let active := (sorted.filter fun r =>
    decide (r.signingStatus = SigningStatus.NOT_SIGNED ∧ r.role ≠ RecipientRole.CC)).take 1
  let _secondary := active.filter fun r => decide (r.sendStatus ≠ SendStatus.SENT)
  active

/-- The same computation with the dead secondary filter statement removed. -/
def sequentialToNotifyFixed (sorted : List Recipient) : List Recipient :=
  (sorted.filter fun r =>
    decide (r.signingStatus = SigningStatus.NOT_SIGNED ∧ r.role ≠ RecipientRole.CC)).take 1

/-- The audit entry `DOCUMENT_SENT` written when sending a DRAFT envelope. -/
def documentSentAudit (a : SendArgs) : AuditEntry :=
  { type := AuditType.DOCUMENT_SENT, recipientId := none, fieldId := none,
    ipAddress := a.meta.ipAddress, actionAuth := none }

/-- The `prisma.$transaction` block of `sendDocument` (transaction index 0):
auto-sign resolution against the snapshot, the `DOCUMENT_SENT` audit entry
when the envelope was DRAFT, and the status update to PENDING. -/
def sendTx (a : SendArgs) (wasDraft : Bool) (snap : List Recipient) (x : M) : M :=
  let x1 := resolveAutoSignSnap (some 0) a.now snap x
  let x2 := if wasDraft then createAuditM (some 0) (documentSentAudit a) x1 else x1
  setEnvelopeStatusM (some 0) DocumentStatus.PENDING x2

/-- The notification dispatch loop of `sendDocument`: when email sending is
on, trigger a signing-request job for every to-notify recipient that is not
already SENT and not CC. -/
def notifyPhase (shouldEmail : Bool) (notify : List Recipient) (x : M) : M :=
  if shouldEmail then
    notify.foldl (fun y r =>
      if r.sendStatus = SendStatus.SENT ∨ r.role = RecipientRole.CC then y
      else triggerJobM none (JobName.signingRequested r.id) y) x
  else x

/-- `sendDocument` of `send-document.ts`.  The form-values PDF injection is
an external PDF operation touching no modelled record and is therefore not
reflected in the state. -/
def sendDocument (s : St) (a : SendArgs) : Except (SError × M) M :=
  if s.recipients.isEmpty then Except.error (SError.noRecipients, s, [])
  else if isDocumentCompleted s.envelope.status then Except.error (SError.alreadyCompleted, s, [])
  else
    let envRecipients := sortRecipients s.recipients
    let recipientsToNotify :=
      if s.envelope.signingOrder = SigningOrder.SEQUENTIAL then sequentialToNotify envRecipients
      else envRecipients
    if s.envelope.hasEnvelopeItems = false then Except.error (SError.noEnvelopeItems, s, [])
    else if envRecipients.all (fun r =>
        decide (r.role = RecipientRole.CC ∨ r.signingStatus = SigningStatus.SIGNED)) then
      Except.ok (s, [Event.job none JobName.sealDocument])
    else
      Except.ok (webhookM WebhookKind.DOCUMENT_SENT
        (notifyPhase
          (decide (a.sendEmail = some true ∨ (s.envelope.emailEnabled = true ∧ a.sendEmail = none)))
          recipientsToNotify
          (sendTx a (decide (s.envelope.status = DocumentStatus.DRAFT)) envRecipients (s, []))))

/-- `sendDocument` with the dead secondary filter statement removed,
otherwise identical. -/
def sendDocumentNoSecondaryFilter (s : St) (a : SendArgs) : Except (SError × M) M :=
  if s.recipients.isEmpty then Except.error (SError.noRecipients, s, [])
  else if isDocumentCompleted s.envelope.status then Except.error (SError.alreadyCompleted, s, [])
  else
    let envRecipients := sortRecipients s.recipients
    let recipientsToNotify :=
      if s.envelope.signingOrder = SigningOrder.SEQUENTIAL then sequentialToNotifyFixed envRecipients
      else envRecipients
    if s.envelope.hasEnvelopeItems = false then Except.error (SError.noEnvelopeItems, s, [])
    else if envRecipients.all (fun r =>
        decide (r.role = RecipientRole.CC ∨ r.signingStatus = SigningStatus.SIGNED)) then
      Except.ok (s, [Event.job none JobName.sealDocument])
    else
      Except.ok (webhookM WebhookKind.DOCUMENT_SENT
        (notifyPhase
          (decide (a.sendEmail = some true ∨ (s.envelope.emailEnabled = true ∧ a.sendEmail = none)))
          recipientsToNotify
          (sendTx a (decide (s.envelope.status = DocumentStatus.DRAFT)) envRecipients (s, []))))

/-- A PENDING parallel envelope used by the concrete witness states. -/
def exEnvelope : Envelope :=
  { status := DocumentStatus.PENDING, signingOrder := SigningOrder.PARALLEL,
    allowDictateNextSigner := false, requiresTwoFactor := false,
    emailEnabled := true, hasEnvelopeItems := true }

/-- A plain signer recipient with id and token `i`, used by the concrete
witness states. -/
def exSigner (i : Nat) : Recipient :=
  { id := i, token := i, role := RecipientRole.SIGNER, signingOrder := none,
    signingStatus := SigningStatus.NOT_SIGNED, sendStatus := SendStatus.NOT_SENT,
    name := "", email := "u@example.com", signedAt := none, derivedActionAuth := [] }

/-- Completion arguments for token 1 with a requester ip, used by the
concrete witness states. -/
def exArgs : CompleteArgs :=
  { token := 1, accessAuthValid := none, meta := some { ipAddress := some "203.0.113.1" },
    nextSigner := none, now := 7 }

/-- Send arguments used by the concrete witness states. -/
def exSendArgs : SendArgs :=
  { sendEmail := none, meta := { ipAddress := some "203.0.113.1" }, now := 9 }

/-- The state-and-trace outcome of a run, whether it succeeded or threw
(errors carry the state and trace at the moment of the throw). -/
def resultM {ε : Type} (e : Except (ε × M) M) : M :=
  match e with
  | Except.ok x => x
  | Except.error (_, x) => x

/-- The state-and-trace outcome of the checks phase. -/
def checksM (e : Except (CError × M) (Recipient × M)) : M :=
  match e with
  | Except.ok (_, x) => x
  | Except.error (_, x) => x

/-- The envelope record `E` is unchanged and no envelope write event was
traced. -/
def EnvelopeIntact (E : Envelope) (x : M) : Prop :=
  x.1.envelope = E ∧ ∀ t st, Event.envelopeStatus t st ∉ x.2

/-- Pointwise SIGNED-monotonicity between two recipient lists: positionally,
a recipient SIGNED on the left is still SIGNED on the right. -/
def StatusMono (l1 l2 : List Recipient) : Prop :=
  List.Forall₂ (fun p q =>
    p.signingStatus = SigningStatus.SIGNED → q.signingStatus = SigningStatus.SIGNED) l1 l2

/-- Input refuting C5 as stated: recipient 2 is REJECTED and owns an
uninserted autosign signature field; recipient 1 has nothing to sign. -/
def c5State : St :=
  { envelope := exEnvelope,
    recipients := [exSigner 1,
      { exSigner 2 with signingStatus := SigningStatus.REJECTED }],
    fields := [{ id := 10, recipientId := 2, type := FieldType.SIGNATURE,
                 inserted := false, autosign := true, required := true }],
    signatures := [], auditLog := [] }

/-- The pointwise effect of the auto-sign field loop on a field: inserted
becomes true when the field's id is among the processed ids. -/
def markInsertedIf (ids : List Nat) (f : DocField) : DocField :=
  if f.id ∈ ids then { f with inserted := true } else f

/-- Transaction-tag discipline of a successful completion: completion writes
(the SIGNED update, the auto-sign field/signature writes, and every
FIELD_INSERTED or RECIPIENT_COMPLETED audit entry) carry transaction index 0,
while the advancement's SENT update carries transaction index 1. -/
def TxTagOK : Event → Prop
  | Event.recipientSigned t _ => t = some 0
  | Event.recipientSent t _ => t = some 1
  | Event.fieldInserted t _ => t = some 0
  | Event.signatureCreated t _ _ => t = some 0
  | Event.audit t e =>
      (e.type = AuditType.FIELD_INSERTED ∨ e.type = AuditType.RECIPIENT_COMPLETED) → t = some 0
  | Event.envelopeStatus _ _ => True
  | Event.job _ _ => True
  | Event.pendingEmail _ => True
  | Event.webhook _ => True

/-- The transaction tag of a database-write event (`none` for events that are
not database writes, such as job triggers, emails and webhooks). -/
def mutationTxn : Event → Option (Option Nat)
  | Event.recipientSigned t _ => some t
  | Event.recipientSent t _ => some t
  | Event.fieldInserted t _ => some t
  | Event.signatureCreated t _ _ => some t
  | Event.audit t _ => some t
  | Event.envelopeStatus t _ => some t
  | Event.job _ _ => none
  | Event.pendingEmail _ => none
  | Event.webhook _ => none

/-- A SEQUENTIAL two-signer envelope in which recipient 1 completes and
recipient 2 is advanced, used by the C3 analysis. -/
def c3State : St :=
  { envelope := { exEnvelope with signingOrder := SigningOrder.SEQUENTIAL },
    recipients := [{ exSigner 1 with signingOrder := some 1 },
                   { exSigner 2 with signingOrder := some 2 }],
    fields := [], signatures := [], auditLog := [] }

/-- The event is not a job trigger. -/
def NotJobEvent (ev : Event) : Prop := ∀ t j, ev ≠ Event.job t j

/-- A parallel envelope with a single not-yet-sent signer, for the C6
witness. -/
def c6SendState : St :=
  { envelope := exEnvelope, recipients := [exSigner 1],
    fields := [], signatures := [], auditLog := [] }

/-- A SEQUENTIAL two-signer envelope whose next recipient is already SENT. -/
def c6State : St :=
  { envelope := { exEnvelope with signingOrder := SigningOrder.SEQUENTIAL },
    recipients := [{ exSigner 1 with signingOrder := some 1 },
                   { exSigner 2 with signingOrder := some 2, sendStatus := SendStatus.SENT }],
    fields := [], signatures := [], auditLog := [] }

/-- A PENDING parallel envelope with one unsigned signer; completing it
makes every recipient SIGNED while the envelope stays PENDING. -/
def c4State : St :=
  { envelope := exEnvelope, recipients := [exSigner 1],
    fields := [], signatures := [], auditLog := [] }

/-- A PENDING envelope whose only signer has already SIGNED. -/
def c4SignedState : St :=
  { envelope := exEnvelope,
    recipients := [{ exSigner 1 with signingStatus := SigningStatus.SIGNED }],
    fields := [], signatures := [], auditLog := [] }

/-- A COMPLETED envelope with one signer. -/
def c4CompletedState : St :=
  { envelope := { exEnvelope with status := DocumentStatus.COMPLETED },
    recipients := [exSigner 1],
    fields := [], signatures := [], auditLog := [] }

/-- The RECIPIENT_COMPLETED audit entries recorded in a trace, in order. -/
def completedAudits (tr : Tr) : List AuditEntry :=
  tr.filterMap fun ev => match ev with
    | Event.audit _ e => if e.type = AuditType.RECIPIENT_COMPLETED then some e else none
    | _ => none

/-- The FIELD_INSERTED audit entries recorded in a trace, in order. -/
def insertedAudits (tr : Tr) : List AuditEntry :=
  tr.filterMap fun ev => match ev with
    | Event.audit _ e => if e.type = AuditType.FIELD_INSERTED then some e else none
    | _ => none

/-- Audit discipline of every event recorded after the human completion
entry: any RECIPIENT_COMPLETED entry carries no ip and empty action-auth,
any FIELD_INSERTED entry carries no ip and no action-auth. -/
def AutoAuditShape : Event → Prop
  | Event.audit _ e =>
      (e.type = AuditType.RECIPIENT_COMPLETED → e.ipAddress = none ∧ e.actionAuth = some []) ∧
      (e.type = AuditType.FIELD_INSERTED → e.ipAddress = none ∧ e.actionAuth = none)
  | _ => True

@[simp] theorem setRecipientSignedM_recipients (t : Option Nat) (rid now : Nat) (x : M) :
    (setRecipientSignedM t rid now x).1.recipients = x.1.recipients.map
      (fun r => if r.id = rid then { r with signingStatus := SigningStatus.SIGNED, signedAt := some now } else r) := rfl

@[simp] theorem setRecipientSignedM_envelope (t : Option Nat) (rid now : Nat) (x : M) :
    (setRecipientSignedM t rid now x).1.envelope = x.1.envelope := rfl

@[simp] theorem setRecipientSignedM_fields (t : Option Nat) (rid now : Nat) (x : M) :
    (setRecipientSignedM t rid now x).1.fields = x.1.fields := rfl

@[simp] theorem setRecipientSignedM_signatures (t : Option Nat) (rid now : Nat) (x : M) :
    (setRecipientSignedM t rid now x).1.signatures = x.1.signatures := rfl

@[simp] theorem setRecipientSignedM_auditLog (t : Option Nat) (rid now : Nat) (x : M) :
    (setRecipientSignedM t rid now x).1.auditLog = x.1.auditLog := rfl

@[simp] theorem setRecipientSignedM_trace (t : Option Nat) (rid now : Nat) (x : M) :
    (setRecipientSignedM t rid now x).2 = x.2 ++ [Event.recipientSigned t rid] := rfl

@[simp] theorem setRecipientSentM_recipients (t : Option Nat) (rid : Nat) (rn : Option (String × String)) (x : M) :
    (setRecipientSentM t rid rn x).1.recipients = x.1.recipients.map
      (fun r => if r.id = rid then
          { r with sendStatus := SendStatus.SENT,
                   name := (rn.map Prod.fst).getD r.name,
                   email := (rn.map Prod.snd).getD r.email } else r) := rfl

@[simp] theorem setRecipientSentM_envelope (t : Option Nat) (rid : Nat) (rn : Option (String × String)) (x : M) :
    (setRecipientSentM t rid rn x).1.envelope = x.1.envelope := rfl

@[simp] theorem setRecipientSentM_fields (t : Option Nat) (rid : Nat) (rn : Option (String × String)) (x : M) :
    (setRecipientSentM t rid rn x).1.fields = x.1.fields := rfl

@[simp] theorem setRecipientSentM_signatures (t : Option Nat) (rid : Nat) (rn : Option (String × String)) (x : M) :
    (setRecipientSentM t rid rn x).1.signatures = x.1.signatures := rfl

@[simp] theorem setRecipientSentM_auditLog (t : Option Nat) (rid : Nat) (rn : Option (String × String)) (x : M) :
    (setRecipientSentM t rid rn x).1.auditLog = x.1.auditLog := rfl

@[simp] theorem setRecipientSentM_trace (t : Option Nat) (rid : Nat) (rn : Option (String × String)) (x : M) :
    (setRecipientSentM t rid rn x).2 = x.2 ++ [Event.recipientSent t rid] := rfl

@[simp] theorem setFieldInsertedM_recipients (t : Option Nat) (fid : Nat) (x : M) :
    (setFieldInsertedM t fid x).1.recipients = x.1.recipients := rfl

@[simp] theorem setFieldInsertedM_envelope (t : Option Nat) (fid : Nat) (x : M) :
    (setFieldInsertedM t fid x).1.envelope = x.1.envelope := rfl

@[simp] theorem setFieldInsertedM_fields (t : Option Nat) (fid : Nat) (x : M) :
    (setFieldInsertedM t fid x).1.fields = x.1.fields.map
      (fun f => if f.id = fid then { f with inserted := true } else f) := rfl

@[simp] theorem setFieldInsertedM_signatures (t : Option Nat) (fid : Nat) (x : M) :
    (setFieldInsertedM t fid x).1.signatures = x.1.signatures := rfl

@[simp] theorem setFieldInsertedM_auditLog (t : Option Nat) (fid : Nat) (x : M) :
    (setFieldInsertedM t fid x).1.auditLog = x.1.auditLog := rfl

@[simp] theorem setFieldInsertedM_trace (t : Option Nat) (fid : Nat) (x : M) :
    (setFieldInsertedM t fid x).2 = x.2 ++ [Event.fieldInserted t fid] := rfl

@[simp] theorem createSignatureM_recipients (t : Option Nat) (fid rid : Nat) (ty : String) (x : M) :
    (createSignatureM t fid rid ty x).1.recipients = x.1.recipients := rfl

@[simp] theorem createSignatureM_envelope (t : Option Nat) (fid rid : Nat) (ty : String) (x : M) :
    (createSignatureM t fid rid ty x).1.envelope = x.1.envelope := rfl

@[simp] theorem createSignatureM_fields (t : Option Nat) (fid rid : Nat) (ty : String) (x : M) :
    (createSignatureM t fid rid ty x).1.fields = x.1.fields := rfl

@[simp] theorem createSignatureM_signatures (t : Option Nat) (fid rid : Nat) (ty : String) (x : M) :
    (createSignatureM t fid rid ty x).1.signatures =
      x.1.signatures ++ [{ fieldId := fid, recipientId := rid, typedSignature := ty }] := rfl

@[simp] theorem createSignatureM_auditLog (t : Option Nat) (fid rid : Nat) (ty : String) (x : M) :
    (createSignatureM t fid rid ty x).1.auditLog = x.1.auditLog := rfl

@[simp] theorem createSignatureM_trace (t : Option Nat) (fid rid : Nat) (ty : String) (x : M) :
    (createSignatureM t fid rid ty x).2 = x.2 ++ [Event.signatureCreated t fid rid] := rfl

@[simp] theorem createAuditM_recipients (t : Option Nat) (e : AuditEntry) (x : M) :
    (createAuditM t e x).1.recipients = x.1.recipients := rfl

@[simp] theorem createAuditM_envelope (t : Option Nat) (e : AuditEntry) (x : M) :
    (createAuditM t e x).1.envelope = x.1.envelope := rfl

@[simp] theorem createAuditM_fields (t : Option Nat) (e : AuditEntry) (x : M) :
    (createAuditM t e x).1.fields = x.1.fields := rfl

@[simp] theorem createAuditM_signatures (t : Option Nat) (e : AuditEntry) (x : M) :
    (createAuditM t e x).1.signatures = x.1.signatures := rfl

@[simp] theorem createAuditM_auditLog (t : Option Nat) (e : AuditEntry) (x : M) :
    (createAuditM t e x).1.auditLog = x.1.auditLog ++ [e] := rfl

@[simp] theorem createAuditM_trace (t : Option Nat) (e : AuditEntry) (x : M) :
    (createAuditM t e x).2 = x.2 ++ [Event.audit t e] := rfl

@[simp] theorem setEnvelopeStatusM_state (t : Option Nat) (st : DocumentStatus) (x : M) :
    (setEnvelopeStatusM t st x).1 = { x.1 with envelope := { x.1.envelope with status := st } } := rfl

@[simp] theorem setEnvelopeStatusM_trace (t : Option Nat) (st : DocumentStatus) (x : M) :
    (setEnvelopeStatusM t st x).2 = x.2 ++ [Event.envelopeStatus t st] := rfl

@[simp] theorem triggerJobM_state (t : Option Nat) (j : JobName) (x : M) :
    (triggerJobM t j x).1 = x.1 := rfl

@[simp] theorem triggerJobM_trace (t : Option Nat) (j : JobName) (x : M) :
    (triggerJobM t j x).2 = x.2 ++ [Event.job t j] := rfl

@[simp] theorem pendingEmailM_state (rid : Nat) (x : M) :
    (pendingEmailM rid x).1 = x.1 := rfl

@[simp] theorem pendingEmailM_trace (rid : Nat) (x : M) :
    (pendingEmailM rid x).2 = x.2 ++ [Event.pendingEmail rid] := rfl

@[simp] theorem webhookM_state (k : WebhookKind) (x : M) :
    (webhookM k x).1 = x.1 := rfl

@[simp] theorem webhookM_trace (k : WebhookKind) (x : M) :
    (webhookM k x).2 = x.2 ++ [Event.webhook k] := rfl

theorem foldlPreserve {α β : Type} (P : α → Prop) (f : α → β → α)
    (h : ∀ x b, P x → P (f x b)) :
    ∀ (l : List β) (x : α), P x → P (l.foldl f x) := by
  intro l
  induction l with
  | nil => intro x hx; exact hx
  | cons b t ih => intro x hx; exact ih (f x b) (h x b hx)

theorem foldlTraceAppend {β : Type} (P : Event → Prop) (step : M → β → M) :
    ∀ (l : List β),
      (∀ x b, b ∈ l → ∃ d, (step x b).2 = x.2 ++ d ∧ ∀ e ∈ d, P e) →
      ∀ x : M, ∃ d, (l.foldl step x).2 = x.2 ++ d ∧ ∀ e ∈ d, P e := by
  intro l
  induction l with
  | nil => intro _ x; exact ⟨[], by simp, by simp⟩
  | cons b t ih =>
    intro h x
    obtain ⟨d1, hd1, hp1⟩ := h x b (List.mem_cons_self b t)
    obtain ⟨d2, hd2, hp2⟩ := ih (fun y c hc => h y c (List.mem_cons_of_mem b hc)) (step x b)
    refine ⟨d1 ++ d2, ?_, ?_⟩
    · simp only [List.foldl_cons, hd2, hd1, List.append_assoc]
    · intro e he
      rcases List.mem_append.mp he with h1 | h2
      · exact hp1 e h1
      · exact hp2 e h2

theorem mem_insertRecipient {x r : Recipient} {l : List Recipient} :
    x ∈ insertRecipient r l ↔ x = r ∨ x ∈ l := by
  induction l with
  | nil => simp [insertRecipient]
  | cons y t ih =>
    by_cases h : recipientLe r y
    · simp [insertRecipient, h]
    · simp [insertRecipient, h, ih]
      tauto

theorem mem_sortRecipients {x : Recipient} {l : List Recipient} :
    x ∈ sortRecipients l ↔ x ∈ l := by
  induction l with
  | nil => simp [sortRecipients]
  | cons y t ih => simp [sortRecipients, mem_insertRecipient, ih]

/-- C1: each failing precondition of `completeDocumentWithToken` — envelope
not PENDING, no recipient matching the token, recipient already SIGNED or
already REJECTED, not the recipient's turn under SEQUENTIAL order, an
unsigned required field among the recipient's own fields — produces the
typed error of that distinct failure mode, and the returned error carries
the unchanged state and an empty write trace: nothing is mutated. -/
theorem c1_preconditions_typed_errors (s : St) (a : CompleteArgs) :
    ((s.recipients.filter fun r => decide (r.token = a.token)).head? = none →
      completeDocumentWithToken s a = Except.error (CError.notFound, s, [])) ∧
    (∀ r, (s.recipients.filter fun r => decide (r.token = a.token)).head? = some r →
      (s.envelope.status ≠ DocumentStatus.PENDING →
        completeDocumentWithToken s a = Except.error (CError.notPending, s, [])) ∧
      (s.envelope.status = DocumentStatus.PENDING →
       r.signingStatus = SigningStatus.SIGNED →
        completeDocumentWithToken s a = Except.error (CError.alreadySigned, s, [])) ∧
      (s.envelope.status = DocumentStatus.PENDING →
       r.signingStatus = SigningStatus.REJECTED →
        completeDocumentWithToken s a = Except.error (CError.alreadyRejected, s, [])) ∧
      (s.envelope.status = DocumentStatus.PENDING →
       r.signingStatus = SigningStatus.NOT_SIGNED →
       s.envelope.signingOrder = SigningOrder.SEQUENTIAL →
       isRecipientsTurn s.recipients r = false →
        completeDocumentWithToken s a = Except.error (CError.notRecipientsTurn, s, [])) ∧
      (s.envelope.status = DocumentStatus.PENDING →
       r.signingStatus = SigningStatus.NOT_SIGNED →
       (s.envelope.signingOrder = SigningOrder.SEQUENTIAL → isRecipientsTurn s.recipients r = true) →
       fieldsContainUnsignedRequiredField (s.fields.filter fun f => decide (f.recipientId = r.id)) = true →
        completeDocumentWithToken s a = Except.error (CError.unsignedFields, s, []))) := by
  constructor
  · intro h
    simp [completeDocumentWithToken, completeChecks, h]
  · intro r hr
    refine ⟨?_, ?_, ?_, ?_, ?_⟩
    · intro h
      simp [completeDocumentWithToken, completeChecks, hr, h]
    · intro hp h
      simp [completeDocumentWithToken, completeChecks, hr, hp, h]
    · intro hp h
      simp [completeDocumentWithToken, completeChecks, hr, hp, h]
    · intro hp hn hs ht
      simp [completeDocumentWithToken, completeChecks, hr, hp, hn, hs, ht]
    · intro hp hn hturn hfield
      have hseq : ¬ (s.envelope.signingOrder = SigningOrder.SEQUENTIAL ∧
          isRecipientsTurn s.recipients r = false) := by
        rintro ⟨h1, h2⟩
        rw [hturn h1] at h2
        cases h2
      simp [completeDocumentWithToken, completeChecks, hr, hp, hn, hseq, hfield]

/-- Witness for C1 at a concrete input: a DRAFT envelope with a matching
recipient is rejected with the not-pending error and the state untouched. -/
theorem c1_preconditions_typed_errors_witness :
    completeDocumentWithToken
      { envelope := { exEnvelope with status := DocumentStatus.DRAFT },
        recipients := [exSigner 1], fields := [], signatures := [], auditLog := [] } exArgs
      = Except.error (CError.notPending,
          { envelope := { exEnvelope with status := DocumentStatus.DRAFT },
            recipients := [exSigner 1], fields := [], signatures := [], auditLog := [] }, []) := by
  have h := c1_preconditions_typed_errors
    { envelope := { exEnvelope with status := DocumentStatus.DRAFT },
      recipients := [exSigner 1], fields := [], signatures := [], auditLog := [] } exArgs
  exact ((h.2 (exSigner 1) (by decide)).1 (by decide))

/-- C9: the secondary send-status filter in `sendDocument`'s SEQUENTIAL
branch is a dead computation — the whole function is observably equal to the
same function with that statement removed — and the to-notify list after the
sequential block is exactly the first NOT_SIGNED non-CC recipient of the
ordered list (at most one element), with no condition on its send status. -/
theorem c9_secondary_filter_is_noop :
    (∀ (s : St) (a : SendArgs), sendDocument s a = sendDocumentNoSecondaryFilter s a) ∧
    (∀ sorted : List Recipient, sequentialToNotify sorted =
      (sorted.filter fun r =>
        decide (r.signingStatus = SigningStatus.NOT_SIGNED ∧ r.role ≠ RecipientRole.CC)).take 1) := by
  constructor
  · intro s a
    rfl
  · intro sorted
    rfl

/-- C7: when every recipient is CC or already SIGNED (and the basic send
preconditions hold), `sendDocument` short-circuits: it requests exactly the
seal-document job, dispatches no recipient notification job, and leaves the
state untouched. -/
theorem c7_all_cc_or_signed_send_seals (s : St) (a : SendArgs)
    (hne : s.recipients ≠ [])
    (hst : s.envelope.status ≠ DocumentStatus.COMPLETED)
    (hitems : s.envelope.hasEnvelopeItems = true)
    (hall : ∀ r ∈ s.recipients, r.role = RecipientRole.CC ∨ r.signingStatus = SigningStatus.SIGNED) :
    sendDocument s a = Except.ok (s, [Event.job none JobName.sealDocument]) := by
  have h1 : s.recipients.isEmpty = false := by
    cases hl : s.recipients with
    | nil => exact absurd hl hne
    | cons y t => simp [List.isEmpty]
  have h2 : isDocumentCompleted s.envelope.status = false := by
    simp [isDocumentCompleted, hst]
  have h3 : (sortRecipients s.recipients).all (fun r =>
      decide (r.role = RecipientRole.CC ∨ r.signingStatus = SigningStatus.SIGNED)) = true := by
    rw [List.all_eq_true]
    intro r hr
    exact decide_eq_true (hall r (mem_sortRecipients.mp hr))
  unfold sendDocument
  simp only [h1, h2, hitems, h3]
  simp

/-- Witness for C7 at a concrete input: one CC recipient and one pre-signed
signer, send short-circuits to the seal job. -/
theorem c7_all_cc_or_signed_send_seals_witness :
    sendDocument
      { envelope := exEnvelope,
        recipients := [{ exSigner 1 with role := RecipientRole.CC },
                       { exSigner 2 with signingStatus := SigningStatus.SIGNED }],
        fields := [], signatures := [], auditLog := [] } exSendArgs
      = Except.ok
          ({ envelope := exEnvelope,
             recipients := [{ exSigner 1 with role := RecipientRole.CC },
                            { exSigner 2 with signingStatus := SigningStatus.SIGNED }],
             fields := [], signatures := [], auditLog := [] },
           [Event.job none JobName.sealDocument]) := by
  exact c7_all_cc_or_signed_send_seals _ exSendArgs (by decide) (by decide) (by decide) (by decide)

theorem envelopeIntact_append {E : Envelope} {x : M} {s1 : St} {ev : Event}
    (hs : s1.envelope = x.1.envelope) (hev : ∀ t st, ev ≠ Event.envelopeStatus t st)
    (h : EnvelopeIntact E x) : EnvelopeIntact E (s1, x.2 ++ [ev]) := by
  obtain ⟨h1, h2⟩ := h
  refine ⟨by rw [hs, h1], ?_⟩
  intro t st hmem
  rcases List.mem_append.mp hmem with hm | hm
  · exact h2 t st hm
  · rcases List.mem_singleton.mp hm with rfl
    exact hev t st rfl

theorem envelopeIntact_setRecipientSignedM {E : Envelope} (t : Option Nat) (rid now : Nat)
    (x : M) (h : EnvelopeIntact E x) : EnvelopeIntact E (setRecipientSignedM t rid now x) :=
  envelopeIntact_append rfl (by intro t' st' hc; cases hc) h

theorem envelopeIntact_setRecipientSentM {E : Envelope} (t : Option Nat) (rid : Nat)
    (rn : Option (String × String)) (x : M) (h : EnvelopeIntact E x) :
    EnvelopeIntact E (setRecipientSentM t rid rn x) :=
  envelopeIntact_append rfl (by intro t' st' hc; cases hc) h

theorem envelopeIntact_setFieldInsertedM {E : Envelope} (t : Option Nat) (fid : Nat)
    (x : M) (h : EnvelopeIntact E x) : EnvelopeIntact E (setFieldInsertedM t fid x) :=
  envelopeIntact_append rfl (by intro t' st' hc; cases hc) h

theorem envelopeIntact_createSignatureM {E : Envelope} (t : Option Nat) (fid rid : Nat)
    (typed : String) (x : M) (h : EnvelopeIntact E x) :
    EnvelopeIntact E (createSignatureM t fid rid typed x) :=
  envelopeIntact_append rfl (by intro t' st' hc; cases hc) h

theorem envelopeIntact_createAuditM {E : Envelope} (t : Option Nat) (e : AuditEntry)
    (x : M) (h : EnvelopeIntact E x) : EnvelopeIntact E (createAuditM t e x) :=
  envelopeIntact_append rfl (by intro t' st' hc; cases hc) h

theorem envelopeIntact_triggerJobM {E : Envelope} (t : Option Nat) (j : JobName)
    (x : M) (h : EnvelopeIntact E x) : EnvelopeIntact E (triggerJobM t j x) :=
  envelopeIntact_append rfl (by intro t' st' hc; cases hc) h

theorem envelopeIntact_pendingEmailM {E : Envelope} (rid : Nat)
    (x : M) (h : EnvelopeIntact E x) : EnvelopeIntact E (pendingEmailM rid x) :=
  envelopeIntact_append rfl (by intro t' st' hc; cases hc) h

theorem envelopeIntact_webhookM {E : Envelope} (k : WebhookKind)
    (x : M) (h : EnvelopeIntact E x) : EnvelopeIntact E (webhookM k x) :=
  envelopeIntact_append rfl (by intro t' st' hc; cases hc) h

theorem envelopeIntact_autoSignFieldStep {E : Envelope} (t : Option Nat) :
    ∀ (x : M) (p : DocField × Option Recipient),
      EnvelopeIntact E x → EnvelopeIntact E (autoSignFieldStep t x p) := by
  intro x p hx
  simp only [autoSignFieldStep]
  split
  · exact hx
  · apply envelopeIntact_createAuditM
    apply envelopeIntact_setFieldInsertedM
    split
    · exact envelopeIntact_createSignatureM _ _ _ _ _ hx
    · exact hx

theorem envelopeIntact_autoSignRecipientStep {E : Envelope} (t : Option Nat) (now : Nat) :
    ∀ (x : M) (rid : Nat),
      EnvelopeIntact E x → EnvelopeIntact E (autoSignRecipientStep t now x rid) := by
  intro x rid hx
  simp only [autoSignRecipientStep]
  split
  · exact hx
  · split
    · exact hx
    · split
      · exact hx
      · exact envelopeIntact_createAuditM _ _ _
          (envelopeIntact_setRecipientSignedM _ _ _ _ hx)

theorem envelopeIntact_resolveAutoSign {E : Envelope} (t : Option Nat) (now : Nat)
    (x : M) (h : EnvelopeIntact E x) : EnvelopeIntact E (resolveAutoSign t now x) := by
  unfold resolveAutoSign
  apply foldlPreserve (EnvelopeIntact E) _ (fun y b hy => envelopeIntact_autoSignRecipientStep t now y b hy)
  apply foldlPreserve (EnvelopeIntact E) _ (fun y b hy => envelopeIntact_autoSignFieldStep t y b hy)
  exact h

theorem envelopeIntact_completionTx {E : Envelope} (a : CompleteArgs) (r : Recipient)
    (x : M) (h : EnvelopeIntact E x) : EnvelopeIntact E (completionTx a r x) := by
  simp only [completionTx]
  split
  · exact envelopeIntact_createAuditM _ _ _ (envelopeIntact_setRecipientSignedM _ _ _ _ h)
  · exact envelopeIntact_resolveAutoSign _ _ _
      (envelopeIntact_createAuditM _ _ _ (envelopeIntact_setRecipientSignedM _ _ _ _ h))

theorem envelopeIntact_advanceTx {E : Envelope} (a : CompleteArgs) (next : Recipient)
    (ad : Bool) (x : M) (h : EnvelopeIntact E x) : EnvelopeIntact E (advanceTx a next ad x) := by
  simp only [advanceTx]
  apply envelopeIntact_triggerJobM
  apply envelopeIntact_setRecipientSentM
  split
  · exact envelopeIntact_createAuditM _ _ _ h
  · exact h

theorem envelopeIntact_advancePhase {E : Envelope} (a : CompleteArgs) (r : Recipient)
    (x : M) (h : EnvelopeIntact E x) : EnvelopeIntact E (advancePhase a r x) := by
  simp only [advancePhase]
  split
  · exact h
  · split
    · exact envelopeIntact_advanceTx _ _ _ _ (envelopeIntact_pendingEmailM _ _ h)
    · exact envelopeIntact_pendingEmailM _ _ h

theorem envelopeIntact_sealPhase {E : Envelope}
    (x : M) (h : EnvelopeIntact E x) : EnvelopeIntact E (sealPhase x) := by
  simp only [sealPhase]
  split
  · exact envelopeIntact_triggerJobM _ _ _ h
  · exact h

theorem envelopeIntact_completeBody {E : Envelope} (a : CompleteArgs) (r : Recipient)
    (x : M) (h : EnvelopeIntact E x) : EnvelopeIntact E (completeBody a r x) := by
  unfold completeBody
  exact envelopeIntact_webhookM _ _ (envelopeIntact_sealPhase _ (envelopeIntact_advancePhase a r _
    (envelopeIntact_triggerJobM _ _ _ (envelopeIntact_completionTx a r x h))))

theorem envelopeIntact_completeChecks (s : St) (a : CompleteArgs) :
    EnvelopeIntact s.envelope (checksM (completeChecks s a)) := by
  have hbase : EnvelopeIntact s.envelope ((s, []) : M) := ⟨rfl, by intro t st h; cases h⟩
  unfold completeChecks
  split
  · exact hbase
  · split
    · exact hbase
    · split
      · exact hbase
      · split
        · exact hbase
        · split
          · exact hbase
          · split
            · exact hbase
            · split
              · split
                · exact hbase
                · split
                  · exact envelopeIntact_createAuditM _ _ _ hbase
                  · exact envelopeIntact_createAuditM _ _ _ hbase
              · exact hbase

/-- C10: `completeDocumentWithToken` never writes the envelope record — on
every run, successful or failing, the envelope (its status included) is
unchanged in the resulting state and no envelope-write event is in the
trace; mutations are confined to recipients, fields, signatures and audit
rows. -/
theorem c10_envelope_never_written (s : St) (a : CompleteArgs) :
    (resultM (completeDocumentWithToken s a)).1.envelope = s.envelope ∧
    ∀ t st, Event.envelopeStatus t st ∉ (resultM (completeDocumentWithToken s a)).2 := by
  have hchecks := envelopeIntact_completeChecks s a
  unfold completeDocumentWithToken
  cases hc : completeChecks s a with
  | error e =>
    rw [hc] at hchecks
    exact hchecks
  | ok rx =>
    rw [hc] at hchecks
    obtain ⟨r, x0⟩ := rx
    exact envelopeIntact_completeBody a r x0 hchecks

theorem statusMono_refl (l : List Recipient) : StatusMono l l :=
  List.forall₂_same.mpr (fun _ _ h => h)

theorem statusMono_trans {l1 l2 l3 : List Recipient}
    (h1 : StatusMono l1 l2) (h2 : StatusMono l2 l3) : StatusMono l1 l3 := by
  induction h1 generalizing l3 with
  | nil => cases h2; exact List.Forall₂.nil
  | @cons p q t1 t2 hpq _ ih =>
    cases h2 with
    | cons hqr htail2 => exact List.Forall₂.cons (fun h => hqr (hpq h)) (ih htail2)

theorem statusMono_map {l : List Recipient} {g : Recipient → Recipient}
    (h : ∀ r, r.signingStatus = SigningStatus.SIGNED →
      (g r).signingStatus = SigningStatus.SIGNED) :
    StatusMono l (l.map g) := by
  induction l with
  | nil => exact List.Forall₂.nil
  | cons y t ih => exact List.Forall₂.cons (h y) ih

theorem statusMono_setRecipientSignedM {L : List Recipient} (t : Option Nat) (rid now : Nat)
    (x : M) (h : StatusMono L x.1.recipients) :
    StatusMono L (setRecipientSignedM t rid now x).1.recipients := by
  apply statusMono_trans h
  simp only [setRecipientSignedM_recipients]
  apply statusMono_map
  intro r hr
  by_cases hid : r.id = rid <;> simp [hid, hr]

theorem statusMono_setRecipientSentM {L : List Recipient} (t : Option Nat) (rid : Nat)
    (rn : Option (String × String)) (x : M) (h : StatusMono L x.1.recipients) :
    StatusMono L (setRecipientSentM t rid rn x).1.recipients := by
  apply statusMono_trans h
  simp only [setRecipientSentM_recipients]
  apply statusMono_map
  intro r hr
  by_cases hid : r.id = rid <;> simp [hid, hr]

theorem statusMono_autoSignFieldStep {L : List Recipient} (t : Option Nat) :
    ∀ (x : M) (p : DocField × Option Recipient),
      StatusMono L x.1.recipients → StatusMono L (autoSignFieldStep t x p).1.recipients := by
  intro x p hx
  simp only [autoSignFieldStep]
  split
  · exact hx
  · split
    · exact hx
    · exact hx

theorem statusMono_autoSignRecipientStep {L : List Recipient} (t : Option Nat) (now : Nat) :
    ∀ (x : M) (rid : Nat),
      StatusMono L x.1.recipients → StatusMono L (autoSignRecipientStep t now x rid).1.recipients := by
  intro x rid hx
  simp only [autoSignRecipientStep]
  split
  · exact hx
  · split
    · exact hx
    · split
      · exact hx
      · simp only [createAuditM_recipients]
        exact statusMono_setRecipientSignedM t rid now x hx

theorem statusMono_resolveAutoSign {L : List Recipient} (t : Option Nat) (now : Nat)
    (x : M) (h : StatusMono L x.1.recipients) :
    StatusMono L (resolveAutoSign t now x).1.recipients := by
  unfold resolveAutoSign
  apply foldlPreserve (fun y : M => StatusMono L y.1.recipients) _
    (fun y b hy => statusMono_autoSignRecipientStep t now y b hy)
  apply foldlPreserve (fun y : M => StatusMono L y.1.recipients) _
    (fun y b hy => statusMono_autoSignFieldStep t y b hy)
  exact h

theorem statusMono_completionTx {L : List Recipient} (a : CompleteArgs) (r : Recipient)
    (x : M) (h : StatusMono L x.1.recipients) :
    StatusMono L (completionTx a r x).1.recipients := by
  simp only [completionTx]
  split
  · simp only [createAuditM_recipients]
    exact statusMono_setRecipientSignedM (some 0) r.id a.now x h
  · exact statusMono_resolveAutoSign (some 0) a.now
      (createAuditM (some 0) (humanCompletionAudit r a.meta) (setRecipientSignedM (some 0) r.id a.now x))
      (by simp only [createAuditM_recipients]
          exact statusMono_setRecipientSignedM (some 0) r.id a.now x h)

theorem statusMono_advanceTx {L : List Recipient} (a : CompleteArgs) (next : Recipient)
    (ad : Bool) (x : M) (h : StatusMono L x.1.recipients) :
    StatusMono L (advanceTx a next ad x).1.recipients := by
  simp only [advanceTx]
  by_cases hd : ad = true ∧ a.nextSigner.isSome = true
  · simp only [if_pos hd, triggerJobM_state, setRecipientSentM_recipients, createAuditM_recipients]
    apply statusMono_trans h
    apply statusMono_map
    intro p hp
    by_cases hid : p.id = next.id <;> simp [hid, hp]
  · simp only [if_neg hd, triggerJobM_state, setRecipientSentM_recipients]
    apply statusMono_trans h
    apply statusMono_map
    intro p hp
    by_cases hid : p.id = next.id <;> simp [hid, hp]

theorem statusMono_advancePhase {L : List Recipient} (a : CompleteArgs) (r : Recipient)
    (x : M) (h : StatusMono L x.1.recipients) :
    StatusMono L (advancePhase a r x).1.recipients := by
  simp only [advancePhase]
  split
  · exact h
  · split
    · exact statusMono_advanceTx _ _ _ _ h
    · exact h

theorem statusMono_sealPhase {L : List Recipient}
    (x : M) (h : StatusMono L x.1.recipients) : StatusMono L (sealPhase x).1.recipients := by
  simp only [sealPhase]
  split
  · exact h
  · exact h

theorem statusMono_completeBody {L : List Recipient} (a : CompleteArgs) (r : Recipient)
    (x : M) (h : StatusMono L x.1.recipients) :
    StatusMono L (completeBody a r x).1.recipients := by
  unfold completeBody
  exact statusMono_sealPhase _ (statusMono_advancePhase a r _ (statusMono_completionTx a r x h))

theorem statusMono_completeChecks (s : St) (a : CompleteArgs) :
    StatusMono s.recipients (checksM (completeChecks s a)).1.recipients := by
  have hbase : StatusMono s.recipients ((s, []) : M).1.recipients := statusMono_refl _
  unfold completeChecks
  split
  · exact hbase
  · split
    · exact hbase
    · split
      · exact hbase
      · split
        · exact hbase
        · split
          · exact hbase
          · split
            · exact hbase
            · split
              · split
                · exact hbase
                · split
                  · exact hbase
                  · exact hbase
              · exact hbase

theorem statusMono_resolveAutoSignSnap {L : List Recipient} (t : Option Nat) (now : Nat)
    (snap : List Recipient) (x : M) (h : StatusMono L x.1.recipients) :
    StatusMono L (resolveAutoSignSnap t now snap x).1.recipients := by
  simp only [resolveAutoSignSnap]
  split
  · apply foldlPreserve (fun y : M => StatusMono L y.1.recipients) _ ?step
    · apply foldlPreserve (fun y : M => StatusMono L y.1.recipients) _
        (fun y b hy => statusMono_autoSignFieldStep t y b hy)
      exact h
    · intro y b hy
      simp only [autoSignRecipientStepSnap]
      split
      · exact hy
      · split
        · simp only [createAuditM_recipients]
          exact statusMono_setRecipientSignedM t b now y hy
        · exact hy
  · exact h

theorem statusMono_sendTx {L : List Recipient} (a : SendArgs) (wd : Bool)
    (snap : List Recipient) (x : M) (h : StatusMono L x.1.recipients) :
    StatusMono L (sendTx a wd snap x).1.recipients := by
  simp only [sendTx]
  split
  · exact statusMono_resolveAutoSignSnap (some 0) a.now snap x h
  · exact statusMono_resolveAutoSignSnap (some 0) a.now snap x h

theorem statusMono_notifyPhase {L : List Recipient} (se : Bool) (notify : List Recipient)
    (x : M) (h : StatusMono L x.1.recipients) :
    StatusMono L (notifyPhase se notify x).1.recipients := by
  simp only [notifyPhase]
  split
  · exact foldlPreserve (fun y : M => StatusMono L y.1.recipients) _
      (fun y b hy => by dsimp only; split; exacts [hy, hy]) notify x h
  · exact h

theorem statusMono_sendDocument (s : St) (a : SendArgs) :
    StatusMono s.recipients (resultM (sendDocument s a)).1.recipients := by
  simp only [sendDocument]
  by_cases h1 : s.recipients.isEmpty = true
  · rw [if_pos h1]
    exact statusMono_refl _
  · rw [if_neg h1]
    by_cases h2 : isDocumentCompleted s.envelope.status = true
    · rw [if_pos h2]
      exact statusMono_refl _
    · rw [if_neg h2]
      by_cases h3 : s.envelope.hasEnvelopeItems = false
      · rw [if_pos h3]
        exact statusMono_refl _
      · rw [if_neg h3]
        by_cases h4 : ((sortRecipients s.recipients).all fun r =>
            decide (r.role = RecipientRole.CC ∨ r.signingStatus = SigningStatus.SIGNED)) = true
        · rw [if_pos h4]
          exact statusMono_refl _
        · rw [if_neg h4]
          exact statusMono_notifyPhase _ _ _
            (statusMono_sendTx a _ (sortRecipients s.recipients) ((s, []) : M) (statusMono_refl _))

/-- C5 (amended): a recipient whose signing status is SIGNED never has it
changed by any operation — on every run of `completeDocumentWithToken` or
`sendDocument`, successful or failing, the recipient list is pointwise
SIGNED-monotone — and the completion path rejects already SIGNED or REJECTED
completers; REJECTED, however, is not terminal (see the counterexample). -/
theorem c5_signed_monotonic :
    (∀ (s : St) (a : CompleteArgs),
        StatusMono s.recipients (resultM (completeDocumentWithToken s a)).1.recipients) ∧
    (∀ (s : St) (a : SendArgs),
        StatusMono s.recipients (resultM (sendDocument s a)).1.recipients) := by
  constructor
  · intro s a
    have hck := statusMono_completeChecks s a
    unfold completeDocumentWithToken
    cases hc : completeChecks s a with
    | error e =>
      obtain ⟨c, m⟩ := e
      rw [hc] at hck
      exact hck
    | ok rx =>
      obtain ⟨r, x0⟩ := rx
      rw [hc] at hck
      exact statusMono_completeBody a r x0 hck
  · intro s a
    exact statusMono_sendDocument s a

/-- Counterexample to C5 as stated: completing recipient 1 auto-signs the
field owned by REJECTED recipient 2 and re-marks recipient 2 as SIGNED — the
auto-sign recipient loop only skips recipients that are already SIGNED, not
REJECTED ones, so REJECTED is not a terminal status. -/
theorem c5_rejected_remarked_counterexample :
    (c5State.recipients.map (fun r => (r.id, r.signingStatus)))
        = [(1, SigningStatus.NOT_SIGNED), (2, SigningStatus.REJECTED)] ∧
    ((resultM (completeDocumentWithToken c5State exArgs)).1.recipients.map
        (fun r => (r.id, r.signingStatus)))
        = [(1, SigningStatus.SIGNED), (2, SigningStatus.SIGNED)] := by
  exact ⟨rfl, rfl⟩

theorem autoSignFieldStep_none (t : Option Nat) (x : M) (p : DocField × Option Recipient)
    (hp : p.2 = none) : autoSignFieldStep t x p = x := by
  simp only [autoSignFieldStep, hp]

theorem autoSignFieldStep_fields_some (t : Option Nat) (x : M) (p : DocField × Option Recipient)
    (owner : Recipient) (hp : p.2 = some owner) :
    (autoSignFieldStep t x p).1.fields =
      x.1.fields.map (fun f => if f.id = p.1.id then { f with inserted := true } else f) := by
  simp only [autoSignFieldStep, hp]
  split <;> simp

theorem autoSignFieldStep_recipients (t : Option Nat) (x : M) (p : DocField × Option Recipient) :
    (autoSignFieldStep t x p).1.recipients = x.1.recipients := by
  simp only [autoSignFieldStep]
  split
  · rfl
  · split <;> simp

theorem fieldLoop_recipients (t : Option Nat) :
    ∀ (l : List (DocField × Option Recipient)) (x : M),
      ((l.foldl (autoSignFieldStep t) x).1).recipients = x.1.recipients := by
  intro l
  induction l with
  | nil => intro x; rfl
  | cons p tl ih =>
    intro x
    rw [List.foldl_cons, ih, autoSignFieldStep_recipients]

theorem fieldLoop_fields (t : Option Nat) :
    ∀ (l : List (DocField × Option Recipient)) (x : M),
      ((l.foldl (autoSignFieldStep t) x).1).fields =
        x.1.fields.map (markInsertedIf (processedFieldIds l)) := by
  intro l
  induction l with
  | nil =>
    intro x
    have h : ∀ f ∈ x.1.fields,
        markInsertedIf (processedFieldIds ([] : List (DocField × Option Recipient))) f = id f := by
      intro f _
      simp [markInsertedIf, processedFieldIds]
    rw [List.map_congr_left h, List.map_id, List.foldl_nil]
  | cons p tl ih =>
    intro x
    rw [List.foldl_cons, ih]
    cases hp : p.2 with
    | none =>
      rw [autoSignFieldStep_none t x p hp]
      simp only [processedFieldIds, List.filterMap_cons, hp]
    | some owner =>
      rw [autoSignFieldStep_fields_some t x p owner hp, List.map_map]
      have hids : processedFieldIds (p :: tl) = p.1.id :: processedFieldIds tl := by
        simp only [processedFieldIds, List.filterMap_cons, hp]
      rw [hids]
      apply List.map_congr_left
      intro f _
      by_cases h1 : f.id = p.1.id
      · by_cases h2 : f.id ∈ processedFieldIds tl <;>
          simp [markInsertedIf, Function.comp, h1, h2]
      · by_cases h2 : f.id ∈ processedFieldIds tl <;>
          simp [markInsertedIf, Function.comp, h1, h2]

theorem autoSignRecipientStep_fields (t : Option Nat) (now : Nat) (x : M) (rid : Nat) :
    (autoSignRecipientStep t now x rid).1.fields = x.1.fields := by
  simp only [autoSignRecipientStep]
  split
  · rfl
  · split
    · rfl
    · split
      · rfl
      · simp

theorem recipientLoop_fields (t : Option Nat) (now : Nat) :
    ∀ (l : List Nat) (x : M),
      ((l.foldl (autoSignRecipientStep t now) x).1).fields = x.1.fields := by
  intro l
  induction l with
  | nil => intro x; rfl
  | cons b tl ih =>
    intro x
    rw [List.foldl_cons, ih, autoSignRecipientStep_fields]

theorem autoSignRecipientStepSnap_fields (t : Option Nat) (now : Nat) (snap : List Recipient)
    (x : M) (rid : Nat) :
    (autoSignRecipientStepSnap t now snap x rid).1.fields = x.1.fields := by
  simp only [autoSignRecipientStepSnap]
  split
  · rfl
  · split
    · simp
    · rfl

theorem recipientLoopSnap_fields (t : Option Nat) (now : Nat) (snap : List Recipient) :
    ∀ (l : List Nat) (x : M),
      ((l.foldl (autoSignRecipientStepSnap t now snap) x).1).fields = x.1.fields := by
  intro l
  induction l with
  | nil => intro x; rfl
  | cons b tl ih =>
    intro x
    rw [List.foldl_cons, ih, autoSignRecipientStepSnap_fields]

theorem autoSignRecipientStep_recipients_shape (t : Option Nat) (now : Nat) (x : M) (rid : Nat) :
    ∃ h : Recipient → Recipient,
      (autoSignRecipientStep t now x rid).1.recipients = x.1.recipients.map h ∧
      ∀ r, (h r).id = r.id := by
  simp only [autoSignRecipientStep]
  split
  · exact ⟨id, by simp, fun r => rfl⟩
  · split
    · exact ⟨id, by simp, fun r => rfl⟩
    · split
      · exact ⟨id, by simp, fun r => rfl⟩
      · refine ⟨fun r => if r.id = rid then
          { r with signingStatus := SigningStatus.SIGNED, signedAt := some now } else r, by simp, ?_⟩
        intro r
        by_cases h : r.id = rid <;> simp [h]

theorem autoSignRecipientStepSnap_recipients_shape (t : Option Nat) (now : Nat)
    (snap : List Recipient) (x : M) (rid : Nat) :
    ∃ h : Recipient → Recipient,
      (autoSignRecipientStepSnap t now snap x rid).1.recipients = x.1.recipients.map h ∧
      ∀ r, (h r).id = r.id := by
  simp only [autoSignRecipientStepSnap]
  split
  · exact ⟨id, by simp, fun r => rfl⟩
  · split
    · refine ⟨fun r => if r.id = rid then
        { r with signingStatus := SigningStatus.SIGNED, signedAt := some now } else r, by simp, ?_⟩
      intro r
      by_cases h : r.id = rid <;> simp [h]
    · exact ⟨id, by simp, fun r => rfl⟩

theorem recipientLoop_recipients_shape (t : Option Nat) (now : Nat) :
    ∀ (l : List Nat) (x : M),
      ∃ g : Recipient → Recipient,
        ((l.foldl (autoSignRecipientStep t now) x).1).recipients = x.1.recipients.map g ∧
        ∀ r, (g r).id = r.id := by
  intro l
  induction l with
  | nil => intro x; exact ⟨id, by simp, fun r => rfl⟩
  | cons b tl ih =>
    intro x
    obtain ⟨g, hg, hgid⟩ := ih (autoSignRecipientStep t now x b)
    obtain ⟨h, hh, hhid⟩ := autoSignRecipientStep_recipients_shape t now x b
    refine ⟨g ∘ h, ?_, fun r => by simp [Function.comp, hgid, hhid]⟩
    rw [List.foldl_cons, hg, hh, List.map_map]

theorem recipientLoopSnap_recipients_shape (t : Option Nat) (now : Nat) (snap : List Recipient) :
    ∀ (l : List Nat) (x : M),
      ∃ g : Recipient → Recipient,
        ((l.foldl (autoSignRecipientStepSnap t now snap) x).1).recipients = x.1.recipients.map g ∧
        ∀ r, (g r).id = r.id := by
  intro l
  induction l with
  | nil => intro x; exact ⟨id, by simp, fun r => rfl⟩
  | cons b tl ih =>
    intro x
    obtain ⟨g, hg, hgid⟩ := ih (autoSignRecipientStepSnap t now snap x b)
    obtain ⟨h, hh, hhid⟩ := autoSignRecipientStepSnap_recipients_shape t now snap x b
    refine ⟨g ∘ h, ?_, fun r => by simp [Function.comp, hgid, hhid]⟩
    rw [List.foldl_cons, hg, hh, List.map_map]

theorem findRecipient_map_none {l : List Recipient} {g : Recipient → Recipient}
    (hg : ∀ r, (g r).id = r.id) (rid : Nat) :
    findRecipient (l.map g) rid = none ↔ findRecipient l rid = none := by
  simp only [findRecipient, List.find?_eq_none, List.mem_map]
  constructor
  · intro h r hr
    have := h (g r) ⟨r, hr, rfl⟩
    simpa [hg r] using this
  · rintro h r ⟨q, hq, rfl⟩
    simpa [hg q] using h q hq

theorem mem_processedFieldIds {l : List (DocField × Option Recipient)}
    {p : DocField × Option Recipient} {owner : Recipient}
    (hmem : p ∈ l) (hp : p.2 = some owner) : p.1.id ∈ processedFieldIds l := by
  simp only [processedFieldIds, List.mem_filterMap]
  exact ⟨p, hmem, by rw [hp]⟩

theorem orphan_targets_general (x y : M)
    (hf : y.1.fields = x.1.fields.map (markInsertedIf (processedFieldIds (autoSignTargets x.1))))
    (hg : ∃ g : Recipient → Recipient,
      y.1.recipients = x.1.recipients.map g ∧ ∀ r, (g r).id = r.id) :
    ∀ p ∈ autoSignTargets y.1, p.2 = none := by
  obtain ⟨g, hgr, hgid⟩ := hg
  intro p hp
  simp only [autoSignTargets, List.mem_map, List.mem_filter] at hp
  obtain ⟨f1, ⟨hf1mem, hf1q⟩, rfl⟩ := hp
  rw [hf] at hf1mem
  simp only [List.mem_map] at hf1mem
  obtain ⟨f0, hf0mem, rfl⟩ := hf1mem
  by_cases hc : f0.id ∈ processedFieldIds (autoSignTargets x.1)
  · exfalso
    simp [markInsertedIf, hc] at hf1q
  · have hfix : markInsertedIf (processedFieldIds (autoSignTargets x.1)) f0 = f0 := by
      simp [markInsertedIf, hc]
    rw [hfix] at hf1q ⊢
    cases hl : findRecipient x.1.recipients f0.recipientId with
    | some r =>
      exfalso
      apply hc
      have hmem : ((f0, findRecipient x.1.recipients f0.recipientId) :
          DocField × Option Recipient) ∈ autoSignTargets x.1 := by
        simp only [autoSignTargets, List.mem_map]
        exact ⟨f0, List.mem_filter.mpr ⟨hf0mem, hf1q⟩, rfl⟩
      exact mem_processedFieldIds hmem hl
    | none =>
      show findRecipient y.1.recipients f0.recipientId = none
      rw [hgr]
      exact (findRecipient_map_none hgid f0.recipientId).mpr hl

theorem fieldLoop_all_none (t : Option Nat) :
    ∀ (l : List (DocField × Option Recipient)), (∀ p ∈ l, p.2 = none) →
      ∀ x : M, l.foldl (autoSignFieldStep t) x = x := by
  intro l
  induction l with
  | nil => intro _ x; rfl
  | cons p tl ih =>
    intro h x
    rw [List.foldl_cons, autoSignFieldStep_none t x p (h p (List.mem_cons_self p tl))]
    exact ih (fun q hq => h q (List.mem_cons_of_mem p hq)) x

theorem autoSignRecipientIds_foldl_none :
    ∀ (l : List (DocField × Option Recipient)), (∀ p ∈ l, p.2 = none) →
      ∀ acc : List Nat,
        l.foldl (fun acc p => match p.2 with
          | none => acc
          | some _ => if acc.contains p.1.recipientId then acc else acc ++ [p.1.recipientId]) acc
          = acc := by
  intro l
  induction l with
  | nil => intro _ acc; rfl
  | cons p tl ih =>
    intro h acc
    rw [List.foldl_cons]
    have hp := h p (List.mem_cons_self p tl)
    simp only [hp]
    exact ih (fun q hq => h q (List.mem_cons_of_mem p hq)) acc

theorem autoSignRecipientIds_all_none
    (l : List (DocField × Option Recipient)) (h : ∀ p ∈ l, p.2 = none) :
    autoSignRecipientIds l = [] := by
  have := autoSignRecipientIds_foldl_none l h []
  simpa [autoSignRecipientIds] using this

theorem resolveAutoSign_orphan_targets (t : Option Nat) (now : Nat) (x : M) :
    ∀ p ∈ autoSignTargets ((resolveAutoSign t now x).1), p.2 = none := by
  apply orphan_targets_general x
  · show ((autoSignRecipientIds (autoSignTargets x.1)).foldl (autoSignRecipientStep t now)
      ((autoSignTargets x.1).foldl (autoSignFieldStep t) x)).1.fields = _
    rw [recipientLoop_fields, fieldLoop_fields]
  · obtain ⟨g, hg, hid⟩ := recipientLoop_recipients_shape t now
      (autoSignRecipientIds (autoSignTargets x.1)) ((autoSignTargets x.1).foldl (autoSignFieldStep t) x)
    refine ⟨g, ?_, hid⟩
    show ((autoSignRecipientIds (autoSignTargets x.1)).foldl (autoSignRecipientStep t now)
      ((autoSignTargets x.1).foldl (autoSignFieldStep t) x)).1.recipients = _
    rw [hg, fieldLoop_recipients]

theorem resolveAutoSignSnap_orphan_targets (t : Option Nat) (now : Nat)
    (snap : List Recipient) (x : M) :
    ∀ p ∈ autoSignTargets ((resolveAutoSignSnap t now snap x).1), p.2 = none := by
  by_cases hguard : 0 < (autoSignTargets x.1).length
  · simp only [resolveAutoSignSnap, if_pos hguard]
    apply orphan_targets_general x
    · show ((autoSignRecipientIds (autoSignTargets x.1)).foldl (autoSignRecipientStepSnap t now snap)
        ((autoSignTargets x.1).foldl (autoSignFieldStep t) x)).1.fields = _
      rw [recipientLoopSnap_fields, fieldLoop_fields]
    · obtain ⟨g, hg, hid⟩ := recipientLoopSnap_recipients_shape t now snap
        (autoSignRecipientIds (autoSignTargets x.1))
        ((autoSignTargets x.1).foldl (autoSignFieldStep t) x)
      refine ⟨g, ?_, hid⟩
      show ((autoSignRecipientIds (autoSignTargets x.1)).foldl (autoSignRecipientStepSnap t now snap)
        ((autoSignTargets x.1).foldl (autoSignFieldStep t) x)).1.recipients = _
      rw [hg, fieldLoop_recipients]
  · have hT : autoSignTargets x.1 = [] := by
      cases hT : autoSignTargets x.1 with
      | nil => rfl
      | cons a l => rw [hT] at hguard; simp at hguard
    simp only [resolveAutoSignSnap, if_neg hguard]
    rw [hT]
    intro p hp
    cases hp

/-- C2: auto-sign resolution is idempotent.  Both resolver variants — the one
inside `completeDocumentWithToken`'s transaction (recipient reloads) and the
one inside `sendDocument`'s transaction (snapshot recipient checks, guarded
by a nonempty selection) — select only fields with `autosign = true` and
`inserted = false`, so a second run on the state the first produced selects
nothing and changes nothing: no new Signature row, no new field update, no
duplicate FIELD_INSERTED or RECIPIENT_COMPLETED audit entry, no re-marked
recipient, and no new trace event at all. -/
theorem c2_autosign_resolution_idempotent :
    (∀ (t : Option Nat) (now : Nat) (x : M),
        resolveAutoSign t now (resolveAutoSign t now x) = resolveAutoSign t now x) ∧
    (∀ (t : Option Nat) (now : Nat) (snap : List Recipient) (x : M),
        resolveAutoSignSnap t now snap (resolveAutoSignSnap t now snap x)
          = resolveAutoSignSnap t now snap x) := by
  constructor
  · intro t now x
    have horph := resolveAutoSign_orphan_targets t now x
    revert horph
    generalize resolveAutoSign t now x = Y
    intro horph
    show (autoSignRecipientIds (autoSignTargets Y.1)).foldl (autoSignRecipientStep t now)
      ((autoSignTargets Y.1).foldl (autoSignFieldStep t) Y) = Y
    rw [autoSignRecipientIds_all_none _ horph, List.foldl_nil, fieldLoop_all_none t _ horph]
  · intro t now snap x
    have horph := resolveAutoSignSnap_orphan_targets t now snap x
    revert horph
    generalize resolveAutoSignSnap t now snap x = Y
    intro horph
    simp only [resolveAutoSignSnap]
    split
    · rw [autoSignRecipientIds_all_none _ horph, List.foldl_nil, fieldLoop_all_none t _ horph]
    · rfl

theorem foldlTraceMember {β : Type} (P : Event → Prop) (step : M → β → M) :
    ∀ (l : List β),
      (∀ x b, b ∈ l → ∀ ev, ev ∈ (step x b).2 → ev ∈ x.2 ∨ P ev) →
      ∀ x ev, ev ∈ (l.foldl step x).2 → ev ∈ x.2 ∨ P ev := by
  intro l
  induction l with
  | nil => intro _ x ev hev; exact Or.inl hev
  | cons b tl ih =>
    intro h x ev hev
    rcases ih (fun y c hc => h y c (List.mem_cons_of_mem b hc)) (step x b) ev hev with h1 | h1
    · exact h x b (List.mem_cons_self b tl) ev h1
    · exact Or.inr h1

theorem autoSignFieldStep_txTag :
    ∀ (x : M) (p : DocField × Option Recipient) (ev : Event),
      ev ∈ (autoSignFieldStep (some 0) x p).2 → ev ∈ x.2 ∨ TxTagOK ev := by
  intro x p ev hev
  simp only [autoSignFieldStep] at hev
  split at hev
  · exact Or.inl hev
  · split at hev
    · simp only [createAuditM_trace, setFieldInsertedM_trace, createSignatureM_trace,
        List.append_assoc, List.mem_append, List.mem_singleton] at hev
      rcases hev with h | h | h | h
      · exact Or.inl h
      · subst h; exact Or.inr rfl
      · subst h; exact Or.inr rfl
      · subst h; exact Or.inr fun _ => rfl
    · simp only [createAuditM_trace, setFieldInsertedM_trace,
        List.append_assoc, List.mem_append, List.mem_singleton] at hev
      rcases hev with h | h | h
      · exact Or.inl h
      · subst h; exact Or.inr rfl
      · subst h; exact Or.inr fun _ => rfl

theorem autoSignRecipientStep_txTag (now : Nat) :
    ∀ (x : M) (rid : Nat) (ev : Event),
      ev ∈ (autoSignRecipientStep (some 0) now x rid).2 → ev ∈ x.2 ∨ TxTagOK ev := by
  intro x rid ev hev
  simp only [autoSignRecipientStep] at hev
  split at hev
  · exact Or.inl hev
  · split at hev
    · exact Or.inl hev
    · split at hev
      · exact Or.inl hev
      · simp only [createAuditM_trace, setRecipientSignedM_trace,
          List.append_assoc, List.mem_append, List.mem_singleton] at hev
        rcases hev with h | h | h
        · exact Or.inl h
        · subst h; exact Or.inr rfl
        · subst h; exact Or.inr fun _ => rfl

theorem resolveAutoSign_txTag (now : Nat) :
    ∀ (x : M) (ev : Event),
      ev ∈ (resolveAutoSign (some 0) now x).2 → ev ∈ x.2 ∨ TxTagOK ev := by
  intro x ev hev
  have h1 := foldlTraceMember TxTagOK (autoSignRecipientStep (some 0) now)
    (autoSignRecipientIds (autoSignTargets x.1))
    (fun y b _ => autoSignRecipientStep_txTag now y b)
    ((autoSignTargets x.1).foldl (autoSignFieldStep (some 0)) x) ev hev
  rcases h1 with h1 | h1
  · exact foldlTraceMember TxTagOK (autoSignFieldStep (some 0)) (autoSignTargets x.1)
      (fun y b _ => autoSignFieldStep_txTag y b) x ev h1
  · exact Or.inr h1

theorem completionTx_txTag (a : CompleteArgs) (r : Recipient) :
    ∀ (x : M) (ev : Event),
      ev ∈ (completionTx a r x).2 → ev ∈ x.2 ∨ TxTagOK ev := by
  intro x ev hev
  simp only [completionTx] at hev
  split at hev
  · simp only [createAuditM_trace, setRecipientSignedM_trace,
      List.append_assoc, List.mem_append, List.mem_singleton] at hev
    rcases hev with h | h | h
    · exact Or.inl h
    · subst h; exact Or.inr rfl
    · subst h; exact Or.inr fun _ => rfl
  · rcases resolveAutoSign_txTag a.now _ ev hev with h1 | h1
    · simp only [createAuditM_trace, setRecipientSignedM_trace,
        List.append_assoc, List.mem_append, List.mem_singleton] at h1
      rcases h1 with h | h | h
      · exact Or.inl h
      · subst h; exact Or.inr rfl
      · subst h; exact Or.inr fun _ => rfl
    · exact Or.inr h1

theorem advanceTx_txTag (a : CompleteArgs) (next : Recipient) (ad : Bool) :
    ∀ (x : M) (ev : Event),
      ev ∈ (advanceTx a next ad x).2 → ev ∈ x.2 ∨ TxTagOK ev := by
  intro x ev hev
  simp only [advanceTx] at hev
  by_cases hd : ad = true ∧ a.nextSigner.isSome = true
  · rw [if_pos hd, if_pos hd] at hev
    simp only [triggerJobM_trace, setRecipientSentM_trace, createAuditM_trace,
      List.append_assoc, List.mem_append, List.mem_singleton] at hev
    rcases hev with h | h | h | h
    · exact Or.inl h
    · subst h
      refine Or.inr fun hc => ?_
      rcases hc with hc | hc <;> cases hc
    · subst h; exact Or.inr rfl
    · subst h; exact Or.inr trivial
  · rw [if_neg hd, if_neg hd] at hev
    simp only [triggerJobM_trace, setRecipientSentM_trace,
      List.append_assoc, List.mem_append, List.mem_singleton] at hev
    rcases hev with h | h | h
    · exact Or.inl h
    · subst h; exact Or.inr rfl
    · subst h; exact Or.inr trivial

theorem advancePhase_txTag (a : CompleteArgs) (r : Recipient) :
    ∀ (x : M) (ev : Event),
      ev ∈ (advancePhase a r x).2 → ev ∈ x.2 ∨ TxTagOK ev := by
  intro x ev hev
  simp only [advancePhase] at hev
  split at hev
  · exact Or.inl hev
  · split at hev
    · rcases advanceTx_txTag a _ _ _ ev hev with h1 | h1
      · simp only [pendingEmailM_trace, List.mem_append, List.mem_singleton] at h1
        rcases h1 with h | h
        · exact Or.inl h
        · subst h; exact Or.inr trivial
      · exact Or.inr h1
    · simp only [pendingEmailM_trace, List.mem_append, List.mem_singleton] at hev
      rcases hev with h | h
      · exact Or.inl h
      · subst h; exact Or.inr trivial

theorem completeBody_txTag (a : CompleteArgs) (r : Recipient) :
    ∀ (x : M) (ev : Event),
      ev ∈ (completeBody a r x).2 → ev ∈ x.2 ∨ TxTagOK ev := by
  intro x ev hev
  unfold completeBody at hev
  simp only [webhookM_trace, List.mem_append, List.mem_singleton] at hev
  rcases hev with hev | hev
  case inr => subst hev; exact Or.inr trivial
  have hseal : ev ∈ (advancePhase a r (triggerJobM none (JobName.recipientSignedEmail r.id)
      (completionTx a r x))).2 ∨ TxTagOK ev := by
    revert hev
    simp only [sealPhase]
    split
    · intro hev
      simp only [triggerJobM_trace, List.mem_append, List.mem_singleton] at hev
      rcases hev with h | h
      · exact Or.inl h
      · subst h; exact Or.inr trivial
    · intro hev
      exact Or.inl hev
  rcases hseal with hev2 | hok
  · rcases advancePhase_txTag a r _ ev hev2 with h1 | h1
    · simp only [triggerJobM_trace, List.mem_append, List.mem_singleton] at h1
      rcases h1 with h | h
      · rcases completionTx_txTag a r x ev h with h2 | h2
        · exact Or.inl h2
        · exact Or.inr h2
      · subst h; exact Or.inr trivial
    · exact Or.inr h1
  · exact Or.inr hok

theorem completeChecks_txTag (s : St) (a : CompleteArgs) :
    ∀ ev ∈ (checksM (completeChecks s a)).2, TxTagOK ev := by
  unfold completeChecks
  split
  · intro ev hev; cases hev
  · split
    · intro ev hev; cases hev
    · split
      · intro ev hev; cases hev
      · split
        · intro ev hev; cases hev
        · split
          · intro ev hev; cases hev
          · split
            · intro ev hev; cases hev
            · split
              · split
                · intro ev hev; cases hev
                · split
                  · intro ev hev
                    simp only [checksM, createAuditM_trace, List.nil_append,
                      List.mem_singleton] at hev
                    subst hev
                    intro hc
                    rcases hc with hc | hc <;> cases hc
                  · intro ev hev
                    simp only [checksM, createAuditM_trace, List.nil_append,
                      List.mem_singleton] at hev
                    subst hev
                    intro hc
                    rcases hc with hc | hc <;> cases hc
              · intro ev hev; cases hev

theorem completeDocumentWithToken_txTag (s : St) (a : CompleteArgs) (s1 : St) (tr : Tr)
    (hok : completeDocumentWithToken s a = Except.ok (s1, tr)) :
    ∀ ev ∈ tr, TxTagOK ev := by
  unfold completeDocumentWithToken at hok
  cases hc : completeChecks s a with
  | error e => rw [hc] at hok; cases hok
  | ok rx =>
    obtain ⟨r, x0⟩ := rx
    rw [hc] at hok
    have hck := completeChecks_txTag s a
    rw [hc] at hck
    injection hok with hok
    intro ev hev
    have hev2 : ev ∈ (completeBody a r x0).2 := by rw [hok]; exact hev
    rcases completeBody_txTag a r x0 ev hev2 with h1 | h1
    · exact hck ev h1
    · exact h1

/-- Counterexample to C3 as stated: in the successful completion of
recipient 1 of `c3State`, the SIGNED write runs in transaction 0 while the
advancement's SENT write for recipient 2 runs in transaction 1, so the
recipient-status update, the auto-sign writes and the next-recipient
advancement are not grouped in one atomic transaction. -/
theorem c3_not_one_transaction_counterexample :
    Event.recipientSigned (some 0) 1 ∈ (resultM (completeDocumentWithToken c3State exArgs)).2 ∧
    Event.recipientSent (some 1) 2 ∈ (resultM (completeDocumentWithToken c3State exArgs)).2 ∧
    ¬ ∃ n : Nat, ∀ ev ∈ (resultM (completeDocumentWithToken c3State exArgs)).2,
        ∀ t : Option Nat, mutationTxn ev = some t → t = some n := by
  refine ⟨by decide, by decide, ?_⟩
  rintro ⟨n, h⟩
  have h0 := h (Event.recipientSigned (some 0) 1) (by decide) (some 0) rfl
  have h1 := h (Event.recipientSent (some 1) 2) (by decide) (some 1) rfl
  have : (some 0 : Option Nat) = some 1 := h0.trans h1.symm
  cases this

/-- C3 (amended): in every successful `completeDocumentWithToken` run, the
completion writes — the recipient's SIGNED update, every auto-sign field
update and signature, and every FIELD_INSERTED / RECIPIENT_COMPLETED audit
entry — are grouped in the first transaction (index 0), while the
next-recipient advancement's SENT update runs in a second, separate
transaction (index 1), after the recipient-signed job and the pending
emails; a failure of the advancement therefore cannot roll back the
committed completion writes. -/
theorem c3_completion_and_advancement_transactions (s : St) (a : CompleteArgs)
    (s1 : St) (tr : Tr)
    (hok : completeDocumentWithToken s a = Except.ok (s1, tr)) :
    (∀ t rid, Event.recipientSigned t rid ∈ tr → t = some 0) ∧
    (∀ t fid, Event.fieldInserted t fid ∈ tr → t = some 0) ∧
    (∀ t fid rid, Event.signatureCreated t fid rid ∈ tr → t = some 0) ∧
    (∀ t e, Event.audit t e ∈ tr →
      (e.type = AuditType.FIELD_INSERTED ∨ e.type = AuditType.RECIPIENT_COMPLETED) →
      t = some 0) ∧
    (∀ t rid, Event.recipientSent t rid ∈ tr → t = some 1) := by
  have hall := completeDocumentWithToken_txTag s a s1 tr hok
  refine ⟨?_, ?_, ?_, ?_, ?_⟩
  · intro t rid hmem; exact hall _ hmem
  · intro t fid hmem; exact hall _ hmem
  · intro t fid rid hmem; exact hall _ hmem
  · intro t e hmem; exact hall _ hmem
  · intro t rid hmem; exact hall _ hmem

/-- Witness for C3's amended theorem, instantiated at the concrete run on
`c3State`: the SIGNED write of recipient 1 found in the trace is confirmed to
carry transaction index 0 and the SENT write of recipient 2 transaction
index 1, with every hypothesis discharged by evaluation. -/
theorem c3_completion_and_advancement_transactions_witness :
    (some 0 : Option Nat) = some 0 ∧ (some 1 : Option Nat) = some 1 :=
  ⟨(c3_completion_and_advancement_transactions c3State exArgs
      (resultM (completeDocumentWithToken c3State exArgs)).1
      (resultM (completeDocumentWithToken c3State exArgs)).2 (by rfl)).1
      (some 0) 1 (by decide),
   (c3_completion_and_advancement_transactions c3State exArgs
      (resultM (completeDocumentWithToken c3State exArgs)).1
      (resultM (completeDocumentWithToken c3State exArgs)).2 (by rfl)).2.2.2.2
      (some 1) 2 (by decide)⟩

theorem autoSignFieldStep_noJob (t : Option Nat) :
    ∀ (x : M) (p : DocField × Option Recipient) (ev : Event),
      ev ∈ (autoSignFieldStep t x p).2 → ev ∈ x.2 ∨ NotJobEvent ev := by
  intro x p ev hev
  simp only [autoSignFieldStep] at hev
  split at hev
  · exact Or.inl hev
  · split at hev
    · simp only [createAuditM_trace, setFieldInsertedM_trace, createSignatureM_trace,
        List.append_assoc, List.mem_append, List.mem_singleton] at hev
      rcases hev with h | h | h | h
      · exact Or.inl h
      · subst h; exact Or.inr fun tt j hc => Event.noConfusion hc
      · subst h; exact Or.inr fun tt j hc => Event.noConfusion hc
      · subst h; exact Or.inr fun tt j hc => Event.noConfusion hc
    · simp only [createAuditM_trace, setFieldInsertedM_trace,
        List.append_assoc, List.mem_append, List.mem_singleton] at hev
      rcases hev with h | h | h
      · exact Or.inl h
      · subst h; exact Or.inr fun tt j hc => Event.noConfusion hc
      · subst h; exact Or.inr fun tt j hc => Event.noConfusion hc

theorem autoSignRecipientStepSnap_noJob (t : Option Nat) (now : Nat) (snap : List Recipient) :
    ∀ (x : M) (rid : Nat) (ev : Event),
      ev ∈ (autoSignRecipientStepSnap t now snap x rid).2 → ev ∈ x.2 ∨ NotJobEvent ev := by
  intro x rid ev hev
  simp only [autoSignRecipientStepSnap] at hev
  split at hev
  · exact Or.inl hev
  · split at hev
    · simp only [createAuditM_trace, setRecipientSignedM_trace,
        List.append_assoc, List.mem_append, List.mem_singleton] at hev
      rcases hev with h | h | h
      · exact Or.inl h
      · subst h; exact Or.inr fun tt j hc => Event.noConfusion hc
      · subst h; exact Or.inr fun tt j hc => Event.noConfusion hc
    · exact Or.inl hev

theorem resolveAutoSignSnap_noJob (t : Option Nat) (now : Nat) (snap : List Recipient) :
    ∀ (x : M) (ev : Event),
      ev ∈ (resolveAutoSignSnap t now snap x).2 → ev ∈ x.2 ∨ NotJobEvent ev := by
  intro x ev hev
  simp only [resolveAutoSignSnap] at hev
  split at hev
  · have h1 := foldlTraceMember NotJobEvent (autoSignRecipientStepSnap t now snap)
      (autoSignRecipientIds (autoSignTargets x.1))
      (fun y b _ => autoSignRecipientStepSnap_noJob t now snap y b)
      ((autoSignTargets x.1).foldl (autoSignFieldStep t) x) ev hev
    rcases h1 with h1 | h1
    · exact foldlTraceMember NotJobEvent (autoSignFieldStep t) (autoSignTargets x.1)
        (fun y b _ => autoSignFieldStep_noJob t y b) x ev h1
    · exact Or.inr h1
  · exact Or.inl hev

theorem sendTx_noJob (a : SendArgs) (wd : Bool) (snap : List Recipient) :
    ∀ (x : M) (ev : Event),
      ev ∈ (sendTx a wd snap x).2 → ev ∈ x.2 ∨ NotJobEvent ev := by
  intro x ev hev
  simp only [sendTx, setEnvelopeStatusM_trace] at hev
  rw [List.mem_append] at hev
  rcases hev with hev | hev
  case inr =>
    rw [List.mem_singleton] at hev
    subst hev
    exact Or.inr fun tt j hc => Event.noConfusion hc
  split at hev
  · simp only [createAuditM_trace, List.mem_append, List.mem_singleton] at hev
    rcases hev with hev | hev
    · exact resolveAutoSignSnap_noJob (some 0) a.now snap x ev hev
    · subst hev; exact Or.inr fun tt j hc => Event.noConfusion hc
  · exact resolveAutoSignSnap_noJob (some 0) a.now snap x ev hev

theorem notifyPhase_jobs (se : Bool) (notify : List Recipient) :
    ∀ (x : M) (ev : Event), ev ∈ (notifyPhase se notify x).2 →
      ev ∈ x.2 ∨ ∃ rr ∈ notify, ev = Event.job none (JobName.signingRequested rr.id) ∧
        rr.sendStatus ≠ SendStatus.SENT ∧ rr.role ≠ RecipientRole.CC := by
  intro x ev hev
  simp only [notifyPhase] at hev
  split at hev
  · refine foldlTraceMember
      (fun ev2 => ∃ rr ∈ notify, ev2 = Event.job none (JobName.signingRequested rr.id) ∧
        rr.sendStatus ≠ SendStatus.SENT ∧ rr.role ≠ RecipientRole.CC)
      _ notify ?hstep x ev hev
    intro y b hb ev2 hev2
    split at hev2
    · exact Or.inl hev2
    · rename_i hcond
      simp only [triggerJobM_trace, List.mem_append, List.mem_singleton] at hev2
      rcases hev2 with h | h
      · exact Or.inl h
      · subst h
        exact Or.inr ⟨b, hb, rfl, fun hs => hcond (Or.inl hs), fun hr => hcond (Or.inr hr)⟩
  · exact Or.inl hev

theorem mem_sequentialToNotify {r : Recipient} {sorted : List Recipient}
    (h : r ∈ sequentialToNotify sorted) : r ∈ sorted := by
  simp only [sequentialToNotify] at h
  exact (List.mem_filter.mp (List.mem_of_mem_take h)).1

theorem sendDocument_jobs_master (s : St) (a : SendArgs) :
    ∀ t rid, Event.job t (JobName.signingRequested rid) ∈ (resultM (sendDocument s a)).2 →
      ∃ r ∈ s.recipients, r.id = rid ∧ r.sendStatus ≠ SendStatus.SENT ∧
        r.role ≠ RecipientRole.CC := by
  intro t rid hmem
  simp only [sendDocument] at hmem
  by_cases h1 : s.recipients.isEmpty = true
  · rw [if_pos h1] at hmem; simp [resultM] at hmem
  rw [if_neg h1] at hmem
  by_cases h2 : isDocumentCompleted s.envelope.status = true
  · rw [if_pos h2] at hmem; simp [resultM] at hmem
  rw [if_neg h2] at hmem
  by_cases h3 : s.envelope.hasEnvelopeItems = false
  · rw [if_pos h3] at hmem; simp [resultM] at hmem
  rw [if_neg h3] at hmem
  by_cases h4 : ((sortRecipients s.recipients).all fun r =>
      decide (r.role = RecipientRole.CC ∨ r.signingStatus = SigningStatus.SIGNED)) = true
  · rw [if_pos h4] at hmem
    simp [resultM] at hmem
  · rw [if_neg h4] at hmem
    have hmem2 : Event.job t (JobName.signingRequested rid) ∈
        (webhookM WebhookKind.DOCUMENT_SENT
          (notifyPhase
            (decide (a.sendEmail = some true ∨ (s.envelope.emailEnabled = true ∧ a.sendEmail = none)))
            (if s.envelope.signingOrder = SigningOrder.SEQUENTIAL then
              sequentialToNotify (sortRecipients s.recipients)
            else sortRecipients s.recipients)
            (sendTx a (decide (s.envelope.status = DocumentStatus.DRAFT))
              (sortRecipients s.recipients) (s, [])))).2 := hmem
    simp only [webhookM_trace, List.mem_append, List.mem_singleton] at hmem2
    rcases hmem2 with hmem2 | hmem2
    · rcases notifyPhase_jobs _ _ _ _ hmem2 with hmem3 | hmem3
      · rcases sendTx_noJob a _ _ _ _ hmem3 with h5 | h5
        · cases h5
        · exact absurd rfl (h5 t (JobName.signingRequested rid))
      · obtain ⟨rr, hrrmem, heq, hsent, hcc⟩ := hmem3
        have hid : rid = rr.id := by
          injection heq with hter hjob
          injection hjob
        refine ⟨rr, ?_, hid.symm, hsent, hcc⟩
        by_cases hseq : s.envelope.signingOrder = SigningOrder.SEQUENTIAL
        · rw [if_pos hseq] at hrrmem
          exact mem_sortRecipients.mp (mem_sequentialToNotify hrrmem)
        · rw [if_neg hseq] at hrrmem
          exact mem_sortRecipients.mp hrrmem
    · exact absurd hmem2 (by simp)

/-- C6 (amended): `sendDocument`'s notification dispatch never emits a
signing-request job for a recipient already marked SENT (or with role CC) —
every such job in a successful send run belongs to a recipient of the
envelope that was neither SENT nor CC; the post-completion sequential
advancement of `completeDocumentWithToken`, by contrast, performs no such
check and re-notifies an already-SENT next recipient (see the
counterexample). -/
theorem c6_send_notification_excludes_sent (s : St) (a : SendArgs) (s1 : St) (tr : Tr)
    (hok : sendDocument s a = Except.ok (s1, tr)) :
    ∀ t rid, Event.job t (JobName.signingRequested rid) ∈ tr →
      ∃ r ∈ s.recipients, r.id = rid ∧ r.sendStatus ≠ SendStatus.SENT ∧
        r.role ≠ RecipientRole.CC := by
  intro t rid hmem
  apply sendDocument_jobs_master s a t rid
  rw [hok]
  exact hmem

/-- Witness for C6's amended theorem, instantiated at a concrete successful
send of `c6SendState`, whose trace does contain a signing-request job for
recipient 1: that recipient is neither SENT nor CC. -/
theorem c6_send_notification_excludes_sent_witness :
    ∃ r ∈ c6SendState.recipients, r.id = 1 ∧ r.sendStatus ≠ SendStatus.SENT ∧
      r.role ≠ RecipientRole.CC :=
  c6_send_notification_excludes_sent c6SendState exSendArgs
    (resultM (sendDocument c6SendState exSendArgs)).1
    (resultM (sendDocument c6SendState exSendArgs)).2 (by rfl)
    none 1 (by decide)

/-- Counterexample to C6 as stated: recipient 2 is already SENT, yet the
post-completion sequential advancement triggers a signing-requested job for
recipient 2 anyway. -/
theorem c6_advancement_renotifies_counterexample :
    ((c6State.recipients.filter fun r => decide (r.id = 2)).map Recipient.sendStatus
      = [SendStatus.SENT]) ∧
    Event.job (some 1) (JobName.signingRequested 2) ∈
      (resultM (completeDocumentWithToken c6State exArgs)).2 :=
  ⟨rfl, by decide⟩

/-- Counterexample to C4 as stated: completing the only signer of `c4State`
requests the seal job, and re-sending the resulting envelope — still
PENDING, since the PENDING to COMPLETED transition is delegated to the
external seal job — requests the seal job a second time. -/
theorem c4_seal_rerequested_counterexample :
    Event.job none JobName.sealDocument ∈
      (resultM (completeDocumentWithToken c4State exArgs)).2 ∧
    Event.job none JobName.sealDocument ∈
      (resultM (sendDocument (resultM (completeDocumentWithToken c4State exArgs)).1
        exSendArgs)).2 :=
  ⟨by decide, by decide⟩

/-- C4 (amended): after the triggering completion, a repeated completion
attempt by the now-SIGNED recipient fails with the already-signed error and
requests nothing, and `sendDocument` on a COMPLETED envelope fails; but
while the envelope is still PENDING — the PENDING to COMPLETED transition
being delegated to the external seal job — re-sending a fully-signed
envelope requests the seal-document job again, so the request is not
exactly-once per transition into the fully-signed state. -/
theorem c4_seal_request_qualified :
    (∀ (s : St) (a : CompleteArgs) (r : Recipient),
      (s.recipients.filter fun q => decide (q.token = a.token)).head? = some r →
      s.envelope.status = DocumentStatus.PENDING →
      r.signingStatus = SigningStatus.SIGNED →
      completeDocumentWithToken s a = Except.error (CError.alreadySigned, s, [])) ∧
    (∀ (s : St) (a : SendArgs),
      s.envelope.status = DocumentStatus.COMPLETED →
      s.recipients.isEmpty = false →
      sendDocument s a = Except.error (SError.alreadyCompleted, s, [])) ∧
    (∀ (s : St) (a : SendArgs),
      s.recipients ≠ [] → s.envelope.status = DocumentStatus.PENDING →
      s.envelope.hasEnvelopeItems = true →
      (∀ r ∈ s.recipients, r.role = RecipientRole.CC ∨ r.signingStatus = SigningStatus.SIGNED) →
      sendDocument s a = Except.ok (s, [Event.job none JobName.sealDocument])) := by
  refine ⟨?_, ?_, ?_⟩
  · intro s a r hr hp hsigned
    simp [completeDocumentWithToken, completeChecks, hr, hp, hsigned]
  · intro s a hst hne
    unfold sendDocument
    have h2 : isDocumentCompleted s.envelope.status = true := by
      simp [isDocumentCompleted, hst]
    simp only [hne, h2]
    simp
  · intro s a hne hst hitems hall
    have h1 : s.recipients.isEmpty = false := by
      cases hl : s.recipients with
      | nil => exact absurd hl hne
      | cons y t => simp [List.isEmpty]
    have h2 : isDocumentCompleted s.envelope.status = false := by
      simp [isDocumentCompleted, hst]
    have h3 : (sortRecipients s.recipients).all (fun r =>
        decide (r.role = RecipientRole.CC ∨ r.signingStatus = SigningStatus.SIGNED)) = true := by
      rw [List.all_eq_true]
      intro r hr
      exact decide_eq_true (hall r (mem_sortRecipients.mp hr))
    unfold sendDocument
    simp only [h1, h2, hitems, h3]
    simp

/-- Witness for C4's amended theorem at concrete inputs: the repeated
completion fails, the send on a COMPLETED envelope fails, and the re-send of
the still-PENDING fully-signed envelope requests the seal job again. -/
theorem c4_seal_request_qualified_witness :
    completeDocumentWithToken c4SignedState exArgs
      = Except.error (CError.alreadySigned, c4SignedState, []) ∧
    sendDocument c4CompletedState exSendArgs
      = Except.error (SError.alreadyCompleted, c4CompletedState, []) ∧
    sendDocument c4SignedState exSendArgs
      = Except.ok (c4SignedState, [Event.job none JobName.sealDocument]) :=
  ⟨c4_seal_request_qualified.1 c4SignedState exArgs
      { exSigner 1 with signingStatus := SigningStatus.SIGNED } (by decide) (by decide) (by decide),
   c4_seal_request_qualified.2.1 c4CompletedState exSendArgs (by decide) (by decide),
   c4_seal_request_qualified.2.2 c4SignedState exSendArgs (by decide) (by decide) (by decide)
     (by decide)⟩

theorem completedAudits_append (t1 t2 : Tr) :
    completedAudits (t1 ++ t2) = completedAudits t1 ++ completedAudits t2 := by
  simp [completedAudits]

theorem insertedAudits_append (t1 t2 : Tr) :
    insertedAudits (t1 ++ t2) = insertedAudits t1 ++ insertedAudits t2 := by
  simp [insertedAudits]

theorem completedAudits_of_shape {d : Tr} (h : ∀ e ∈ d, AutoAuditShape e) :
    ∀ e ∈ completedAudits d, e.ipAddress = none ∧ e.actionAuth = some [] := by
  intro e he
  simp only [completedAudits, List.mem_filterMap] at he
  obtain ⟨ev, hev, hm⟩ := he
  have hsh := h ev hev
  cases ev with
  | audit t e0 =>
    dsimp only at hm
    split at hm
    · rename_i htype
      injection hm with hm
      subst hm
      exact hsh.1 htype
    · exact Option.noConfusion hm
  | recipientSigned t rid => exact Option.noConfusion hm
  | recipientSent t rid => exact Option.noConfusion hm
  | fieldInserted t fid => exact Option.noConfusion hm
  | signatureCreated t fid rid => exact Option.noConfusion hm
  | envelopeStatus t st => exact Option.noConfusion hm
  | job t j => exact Option.noConfusion hm
  | pendingEmail rid => exact Option.noConfusion hm
  | webhook k => exact Option.noConfusion hm

theorem insertedAudits_of_shape {d : Tr} (h : ∀ e ∈ d, AutoAuditShape e) :
    ∀ e ∈ insertedAudits d, e.ipAddress = none ∧ e.actionAuth = none := by
  intro e he
  simp only [insertedAudits, List.mem_filterMap] at he
  obtain ⟨ev, hev, hm⟩ := he
  have hsh := h ev hev
  cases ev with
  | audit t e0 =>
    dsimp only at hm
    split at hm
    · rename_i htype
      injection hm with hm
      subst hm
      exact hsh.2 htype
    · exact Option.noConfusion hm
  | recipientSigned t rid => exact Option.noConfusion hm
  | recipientSent t rid => exact Option.noConfusion hm
  | fieldInserted t fid => exact Option.noConfusion hm
  | signatureCreated t fid rid => exact Option.noConfusion hm
  | envelopeStatus t st => exact Option.noConfusion hm
  | job t j => exact Option.noConfusion hm
  | pendingEmail rid => exact Option.noConfusion hm
  | webhook k => exact Option.noConfusion hm

theorem autoSignFieldStep_shape (t : Option Nat) (x : M) (p : DocField × Option Recipient) :
    ∃ d, (autoSignFieldStep t x p).2 = x.2 ++ d ∧ ∀ e ∈ d, AutoAuditShape e := by
  simp only [autoSignFieldStep]
  split
  · exact ⟨[], by simp, by simp⟩
  · rename_i owner howner
    split
    · refine ⟨[Event.signatureCreated t p.1.id p.1.recipientId,
        Event.fieldInserted t p.1.id,
        Event.audit t
          { type := AuditType.FIELD_INSERTED, recipientId := some p.1.recipientId,
            fieldId := some p.1.id, ipAddress := none, actionAuth := none }], by simp, ?_⟩
      intro e he
      simp only [List.mem_cons, List.not_mem_nil, or_false] at he
      rcases he with rfl | rfl | rfl
      · trivial
      · trivial
      · exact ⟨fun h => (nomatch h), fun _ => ⟨rfl, rfl⟩⟩
    · refine ⟨[Event.fieldInserted t p.1.id,
        Event.audit t
          { type := AuditType.FIELD_INSERTED, recipientId := some p.1.recipientId,
            fieldId := some p.1.id, ipAddress := none, actionAuth := none }], by simp, ?_⟩
      intro e he
      simp only [List.mem_cons, List.not_mem_nil, or_false] at he
      rcases he with rfl | rfl
      · trivial
      · exact ⟨fun h => (nomatch h), fun _ => ⟨rfl, rfl⟩⟩

theorem autoSignRecipientStep_shape (t : Option Nat) (now : Nat) (x : M) (rid : Nat) :
    ∃ d, (autoSignRecipientStep t now x rid).2 = x.2 ++ d ∧ ∀ e ∈ d, AutoAuditShape e := by
  simp only [autoSignRecipientStep]
  split
  · exact ⟨[], by simp, by simp⟩
  · split
    · exact ⟨[], by simp, by simp⟩
    · split
      · exact ⟨[], by simp, by simp⟩
      · refine ⟨[Event.recipientSigned t rid, Event.audit t (autoSignedCompletionAudit rid)],
          by simp, ?_⟩
        intro e he
        simp only [List.mem_cons, List.not_mem_nil, or_false] at he
        rcases he with rfl | rfl
        · trivial
        · exact ⟨fun _ => ⟨rfl, rfl⟩, fun h => (nomatch h)⟩

theorem resolveAutoSign_shape (t : Option Nat) (now : Nat) (x : M) :
    ∃ d, (resolveAutoSign t now x).2 = x.2 ++ d ∧ ∀ e ∈ d, AutoAuditShape e := by
  obtain ⟨d1, hd1, hp1⟩ := foldlTraceAppend AutoAuditShape (autoSignFieldStep t)
    (autoSignTargets x.1) (fun y b _ => autoSignFieldStep_shape t y b) x
  obtain ⟨d2, hd2, hp2⟩ := foldlTraceAppend AutoAuditShape (autoSignRecipientStep t now)
    (autoSignRecipientIds (autoSignTargets x.1))
    (fun y b _ => autoSignRecipientStep_shape t now y b)
    ((autoSignTargets x.1).foldl (autoSignFieldStep t) x)
  refine ⟨d1 ++ d2, ?_, ?_⟩
  · show ((autoSignRecipientIds (autoSignTargets x.1)).foldl (autoSignRecipientStep t now)
      ((autoSignTargets x.1).foldl (autoSignFieldStep t) x)).2 = _
    rw [hd2, hd1, List.append_assoc]
  · intro e he
    rcases List.mem_append.mp he with h | h
    · exact hp1 e h
    · exact hp2 e h

theorem completionTx_shape (a : CompleteArgs) (r : Recipient) (x : M) :
    ∃ d, (completionTx a r x).2 =
      x.2 ++ [Event.recipientSigned (some 0) r.id,
              Event.audit (some 0) (humanCompletionAudit r a.meta)] ++ d ∧
      ∀ e ∈ d, AutoAuditShape e := by
  simp only [completionTx]
  split
  · exact ⟨[], by simp, by simp⟩
  · obtain ⟨d, hd, hp⟩ := resolveAutoSign_shape (some 0) a.now
      (createAuditM (some 0) (humanCompletionAudit r a.meta)
        (setRecipientSignedM (some 0) r.id a.now x))
    refine ⟨d, ?_, hp⟩
    rw [hd]
    simp

theorem advanceTx_shape (a : CompleteArgs) (next : Recipient) (ad : Bool) (x : M) :
    ∃ d, (advanceTx a next ad x).2 = x.2 ++ d ∧ ∀ e ∈ d, AutoAuditShape e := by
  simp only [advanceTx]
  by_cases hd : ad = true ∧ a.nextSigner.isSome = true
  · rw [if_pos hd, if_pos hd]
    refine ⟨[Event.audit (some 1)
        { type := AuditType.RECIPIENT_UPDATED, recipientId := some next.id, fieldId := none,
          ipAddress := a.meta.bind (fun m => m.ipAddress), actionAuth := none },
        Event.recipientSent (some 1) next.id,
        Event.job (some 1) (JobName.signingRequested next.id)], by simp, ?_⟩
    intro e he
    simp only [List.mem_cons, List.not_mem_nil, or_false] at he
    rcases he with rfl | rfl | rfl
    · exact ⟨fun h => (nomatch h), fun h => (nomatch h)⟩
    · trivial
    · trivial
  · rw [if_neg hd, if_neg hd]
    refine ⟨[Event.recipientSent (some 1) next.id,
        Event.job (some 1) (JobName.signingRequested next.id)], by simp, ?_⟩
    intro e he
    simp only [List.mem_cons, List.not_mem_nil, or_false] at he
    rcases he with rfl | rfl
    · trivial
    · trivial

theorem advancePhase_shape (a : CompleteArgs) (r : Recipient) (x : M) :
    ∃ d, (advancePhase a r x).2 = x.2 ++ d ∧ ∀ e ∈ d, AutoAuditShape e := by
  simp only [advancePhase]
  split
  · exact ⟨[], by simp, by simp⟩
  · split
    · rename_i next hnext hseq
      obtain ⟨d, hd, hp⟩ := advanceTx_shape a next x.1.envelope.allowDictateNextSigner
        (pendingEmailM r.id x)
      refine ⟨Event.pendingEmail r.id :: d, ?_, ?_⟩
      · rw [hd]
        simp
      · intro e he
        rcases List.mem_cons.mp he with rfl | h
        · trivial
        · exact hp e h
    · refine ⟨[Event.pendingEmail r.id], by simp, ?_⟩
      intro e he
      simp only [List.mem_singleton] at he
      subst he
      trivial

theorem completeBody_shape (a : CompleteArgs) (r : Recipient) (x : M) :
    ∃ d, (completeBody a r x).2 =
      x.2 ++ [Event.recipientSigned (some 0) r.id,
              Event.audit (some 0) (humanCompletionAudit r a.meta)] ++ d ∧
      ∀ e ∈ d, AutoAuditShape e := by
  unfold completeBody
  obtain ⟨d0, hd0, hp0⟩ := completionTx_shape a r x
  obtain ⟨d1, hd1, hp1⟩ := advancePhase_shape a r
    (triggerJobM none (JobName.recipientSignedEmail r.id) (completionTx a r x))
  have hseal : ∃ d2, (sealPhase (advancePhase a r
      (triggerJobM none (JobName.recipientSignedEmail r.id) (completionTx a r x)))).2 =
      (advancePhase a r (triggerJobM none (JobName.recipientSignedEmail r.id)
        (completionTx a r x))).2 ++ d2 ∧ ∀ e ∈ d2, AutoAuditShape e := by
    simp only [sealPhase]
    split
    · refine ⟨[Event.job none JobName.sealDocument], by simp, ?_⟩
      intro e he
      simp only [List.mem_singleton] at he
      subst he
      trivial
    · exact ⟨[], by simp, by simp⟩
  obtain ⟨d2, hd2, hp2⟩ := hseal
  refine ⟨d0 ++ (Event.job none (JobName.recipientSignedEmail r.id) :: d1)
      ++ d2 ++ [Event.webhook WebhookKind.DOCUMENT_SIGNED], ?_, ?_⟩
  · simp only [webhookM_trace, hd2, hd1, triggerJobM_trace, hd0]
    simp [List.append_assoc]
  · intro e he
    rcases List.mem_append.mp he with he2 | hw
    · rcases List.mem_append.mp he2 with he3 | h
      · rcases List.mem_append.mp he3 with h | he4
        · exact hp0 e h
        · rcases List.mem_cons.mp he4 with rfl | h
          · trivial
          · exact hp1 e h
      · exact hp2 e h
    · rcases List.mem_singleton.mp hw with rfl
      trivial

theorem completeChecks_ok_shape (s : St) (a : CompleteArgs) (r : Recipient) (x0 : M)
    (h : completeChecks s a = Except.ok (r, x0)) :
    (s.recipients.filter fun q => decide (q.token = a.token)).head? = some r ∧
    (x0.2 = [] ∨ x0.2 = [Event.audit none (tfaAudit AuditType.TFA_VALIDATED r)]) := by
  unfold completeChecks at h
  cases hh : (s.recipients.filter fun q => decide (q.token = a.token)).head? with
  | none => rw [hh] at h; cases h
  | some r0 =>
    rw [hh] at h
    dsimp only at h
    split at h
    · cases h
    · split at h
      · cases h
      · split at h
        · cases h
        · split at h
          · cases h
          · split at h
            · cases h
            · split at h
              · split at h
                · cases h
                · split at h
                  · injection h with h
                    injection h with h1 h2
                    subst h1
                    refine ⟨rfl, Or.inr ?_⟩
                    rw [← h2]
                    rfl
                  · cases h
              · injection h with h
                injection h with h1 h2
                subst h1
                refine ⟨rfl, Or.inl ?_⟩
                rw [← h2]

theorem autoSignRecipientStepSnap_shape (t : Option Nat) (now : Nat) (snap : List Recipient)
    (x : M) (rid : Nat) :
    ∃ d, (autoSignRecipientStepSnap t now snap x rid).2 = x.2 ++ d ∧ ∀ e ∈ d, AutoAuditShape e := by
  simp only [autoSignRecipientStepSnap]
  split
  · exact ⟨[], by simp, by simp⟩
  · split
    · refine ⟨[Event.recipientSigned t rid, Event.audit t (autoSignedCompletionAudit rid)],
        by simp, ?_⟩
      intro e he
      simp only [List.mem_cons, List.not_mem_nil, or_false] at he
      rcases he with rfl | rfl
      · trivial
      · exact ⟨fun _ => ⟨rfl, rfl⟩, fun h => (nomatch h)⟩
    · exact ⟨[], by simp, by simp⟩

theorem resolveAutoSignSnap_shape (t : Option Nat) (now : Nat) (snap : List Recipient) (x : M) :
    ∃ d, (resolveAutoSignSnap t now snap x).2 = x.2 ++ d ∧ ∀ e ∈ d, AutoAuditShape e := by
  simp only [resolveAutoSignSnap]
  by_cases hlen : 0 < (autoSignTargets x.1).length
  · rw [if_pos hlen]
    obtain ⟨d1, hd1, hp1⟩ := foldlTraceAppend AutoAuditShape (autoSignFieldStep t)
      (autoSignTargets x.1) (fun y b _ => autoSignFieldStep_shape t y b) x
    obtain ⟨d2, hd2, hp2⟩ := foldlTraceAppend AutoAuditShape (autoSignRecipientStepSnap t now snap)
      (autoSignRecipientIds (autoSignTargets x.1))
      (fun y b _ => autoSignRecipientStepSnap_shape t now snap y b)
      ((autoSignTargets x.1).foldl (autoSignFieldStep t) x)
    refine ⟨d1 ++ d2, ?_, ?_⟩
    · rw [hd2, hd1, List.append_assoc]
    · intro e he
      rcases List.mem_append.mp he with h | h
      · exact hp1 e h
      · exact hp2 e h
  · rw [if_neg hlen]
    exact ⟨[], by simp, by simp⟩

theorem sendTx_shape (a : SendArgs) (w : Bool) (snap : List Recipient) (x : M) :
    ∃ d, (sendTx a w snap x).2 = x.2 ++ d ∧ ∀ e ∈ d, AutoAuditShape e := by
  obtain ⟨d1, hd1, hp1⟩ := resolveAutoSignSnap_shape (some 0) a.now snap x
  simp only [sendTx]
  cases w with
  | false =>
    refine ⟨d1 ++ [Event.envelopeStatus (some 0) DocumentStatus.PENDING], ?_, ?_⟩
    · simp [hd1]
    · intro e he
      rcases List.mem_append.mp he with h | h
      · exact hp1 e h
      · rcases List.mem_singleton.mp h with rfl
        trivial
  | true =>
    refine ⟨d1 ++ [Event.audit (some 0) (documentSentAudit a),
        Event.envelopeStatus (some 0) DocumentStatus.PENDING], ?_, ?_⟩
    · simp [hd1]
    · intro e he
      rcases List.mem_append.mp he with h | h
      · exact hp1 e h
      · simp only [List.mem_cons, List.not_mem_nil, or_false] at h
        rcases h with rfl | rfl
        · exact ⟨fun h2 => (nomatch h2), fun h2 => (nomatch h2)⟩
        · trivial

theorem notifyPhase_shape (b : Bool) (notify : List Recipient) (x : M) :
    ∃ d, (notifyPhase b notify x).2 = x.2 ++ d ∧ ∀ e ∈ d, AutoAuditShape e := by
  simp only [notifyPhase]
  split
  · refine foldlTraceAppend AutoAuditShape _ notify ?_ x
    intro y r _
    dsimp only
    split
    · exact ⟨[], by simp, by simp⟩
    · refine ⟨[Event.job none (JobName.signingRequested r.id)], by simp, ?_⟩
      intro e he
      rcases List.mem_singleton.mp he with rfl
      trivial
  · exact ⟨[], by simp, by simp⟩

theorem sendDocument_autoAuditShape (s : St) (a : SendArgs) (s1 : St) (tr : Tr)
    (hok : sendDocument s a = Except.ok (s1, tr)) :
    ∀ e ∈ tr, AutoAuditShape e := by
  simp only [sendDocument] at hok
  by_cases h1 : s.recipients.isEmpty = true
  · rw [if_pos h1] at hok; cases hok
  rw [if_neg h1] at hok
  by_cases h2 : isDocumentCompleted s.envelope.status = true
  · rw [if_pos h2] at hok; cases hok
  rw [if_neg h2] at hok
  by_cases h3 : s.envelope.hasEnvelopeItems = false
  · rw [if_pos h3] at hok; cases hok
  rw [if_neg h3] at hok
  by_cases h4 : ((sortRecipients s.recipients).all fun r =>
      decide (r.role = RecipientRole.CC ∨ r.signingStatus = SigningStatus.SIGNED)) = true
  · rw [if_pos h4] at hok
    injection hok with hok
    have htr : tr = [Event.job none JobName.sealDocument] := (congrArg Prod.snd hok).symm
    subst htr
    intro e he
    rcases List.mem_singleton.mp he with rfl
    trivial
  · rw [if_neg h4] at hok
    injection hok with hok
    have htr : tr = (webhookM WebhookKind.DOCUMENT_SENT
        (notifyPhase
          (decide (a.sendEmail = some true ∨ (s.envelope.emailEnabled = true ∧ a.sendEmail = none)))
          (if s.envelope.signingOrder = SigningOrder.SEQUENTIAL then
            sequentialToNotify (sortRecipients s.recipients)
          else sortRecipients s.recipients)
          (sendTx a (decide (s.envelope.status = DocumentStatus.DRAFT))
            (sortRecipients s.recipients) (s, [])))).2 := (congrArg Prod.snd hok).symm
    obtain ⟨d1, hd1, hp1⟩ := sendTx_shape a (decide (s.envelope.status = DocumentStatus.DRAFT))
      (sortRecipients s.recipients) (s, [])
    obtain ⟨d2, hd2, hp2⟩ := notifyPhase_shape
      (decide (a.sendEmail = some true ∨ (s.envelope.emailEnabled = true ∧ a.sendEmail = none)))
      (if s.envelope.signingOrder = SigningOrder.SEQUENTIAL then
        sequentialToNotify (sortRecipients s.recipients)
      else sortRecipients s.recipients)
      (sendTx a (decide (s.envelope.status = DocumentStatus.DRAFT))
        (sortRecipients s.recipients) (s, []))
    intro e he
    rw [htr, webhookM_trace, hd2, hd1] at he
    rcases List.mem_append.mp he with hin | hwh
    · rcases List.mem_append.mp hin with hin2 | h2d
      · rcases List.mem_append.mp hin2 with h0 | h1d
        · exact absurd h0 (List.not_mem_nil e)
        · exact hp1 e h1d
      · exact hp2 e h2d
    · rcases List.mem_singleton.mp hwh with rfl
      trivial

/-- C8: every audit entry created by auto-signing — at both auto-sign sites,
`completeDocumentWithToken`'s resolver and `sendDocument`'s — carries no
requester ip address and no action-auth claims (an empty list on the
RECIPIENT_COMPLETED entries, none on the FIELD_INSERTED ones),
distinguishing it from the recipient-initiated completion entry.  First
part: in every successful `completeDocumentWithToken` run the
RECIPIENT_COMPLETED entries start with the human entry — which carries the
request metadata's ip address and the recipient's derived action-auth
claims — every later RECIPIENT_COMPLETED entry (the auto-sign-derived ones)
carries no ip and an empty action-auth list, every FIELD_INSERTED entry of
the run (all written by auto-signing) carries no ip and no action-auth,
and whenever the request carried an ip no auto entry equals the human
entry.  Second part: in every successful `sendDocument` run — whose only
RECIPIENT_COMPLETED and FIELD_INSERTED audit entries are the ones its
auto-sign resolver writes — every RECIPIENT_COMPLETED entry carries no ip
and an empty action-auth list and every FIELD_INSERTED entry carries no ip
and no action-auth. -/
theorem c8_autosign_audits_no_ip :
    (∀ (s : St) (a : CompleteArgs) (s1 : St) (tr : Tr) (r : Recipient),
      completeDocumentWithToken s a = Except.ok (s1, tr) →
      (s.recipients.filter fun q => decide (q.token = a.token)).head? = some r →
      ∃ rest, completedAudits tr = humanCompletionAudit r a.meta :: rest ∧
        (∀ e ∈ rest, e.ipAddress = none ∧ e.actionAuth = some []) ∧
        (∀ e ∈ insertedAudits tr, e.ipAddress = none ∧ e.actionAuth = none) ∧
        (humanCompletionAudit r a.meta).ipAddress = a.meta.bind (fun m => m.ipAddress) ∧
        (humanCompletionAudit r a.meta).actionAuth = some r.derivedActionAuth ∧
        (a.meta.bind (fun m => m.ipAddress) ≠ none →
          ∀ e ∈ rest, e ≠ humanCompletionAudit r a.meta)) ∧
    (∀ (s : St) (a : SendArgs) (s1 : St) (tr : Tr),
      sendDocument s a = Except.ok (s1, tr) →
      (∀ e ∈ completedAudits tr, e.ipAddress = none ∧ e.actionAuth = some []) ∧
      (∀ e ∈ insertedAudits tr, e.ipAddress = none ∧ e.actionAuth = none)) := by
  constructor
  · intro s a s1 tr r hok hr
    unfold completeDocumentWithToken at hok
    cases hc : completeChecks s a with
    | error e => rw [hc] at hok; cases hok
    | ok rx =>
      obtain ⟨r0, x0⟩ := rx
      rw [hc] at hok
      injection hok with hok
      obtain ⟨hr0, hx0⟩ := completeChecks_ok_shape s a r0 x0 hc
      have hr0r : r0 = r := by
        rw [hr0] at hr
        injection hr
      subst hr0r
      obtain ⟨d, hd, hshape⟩ := completeBody_shape a r0 x0
      have htr : tr = x0.2 ++ [Event.recipientSigned (some 0) r0.id,
          Event.audit (some 0) (humanCompletionAudit r0 a.meta)] ++ d :=
        ((congrArg Prod.snd hok).symm).trans hd
      have hcomp : completedAudits tr = humanCompletionAudit r0 a.meta :: completedAudits d := by
        rw [htr, completedAudits_append, completedAudits_append]
        rcases hx0 with h | h <;> rw [h] <;> rfl
      have hins : insertedAudits tr = insertedAudits d := by
        rw [htr, insertedAudits_append, insertedAudits_append]
        rcases hx0 with h | h <;> rw [h] <;> rfl
      refine ⟨completedAudits d, hcomp, completedAudits_of_shape hshape, ?_, rfl, rfl, ?_⟩
      · rw [hins]
        exact insertedAudits_of_shape hshape
      · intro hip e he heq
        have hnone := (completedAudits_of_shape hshape e he).1
        rw [heq] at hnone
        exact hip hnone
  · intro s a s1 tr hok
    have hsh := sendDocument_autoAuditShape s a s1 tr hok
    exact ⟨completedAudits_of_shape hsh, insertedAudits_of_shape hsh⟩

/-- Witness for C8 at concrete runs on `c5State`: recipient 1 completes with
a requester ip and recipient 2 is auto-signed, and a send of the same state
auto-inserts recipient 2's field and auto-completes recipient 2. -/
theorem c8_autosign_audits_no_ip_witness :
    (∃ rest, completedAudits ((resultM (completeDocumentWithToken c5State exArgs)).2)
        = humanCompletionAudit (exSigner 1) exArgs.meta :: rest ∧
      (∀ e ∈ rest, e.ipAddress = none ∧ e.actionAuth = some []) ∧
      (∀ e ∈ insertedAudits ((resultM (completeDocumentWithToken c5State exArgs)).2),
        e.ipAddress = none ∧ e.actionAuth = none) ∧
      (humanCompletionAudit (exSigner 1) exArgs.meta).ipAddress
        = exArgs.meta.bind (fun m => m.ipAddress) ∧
      (humanCompletionAudit (exSigner 1) exArgs.meta).actionAuth
        = some (exSigner 1).derivedActionAuth ∧
      (exArgs.meta.bind (fun m => m.ipAddress) ≠ none →
        ∀ e ∈ rest, e ≠ humanCompletionAudit (exSigner 1) exArgs.meta)) ∧
    ((∀ e ∈ completedAudits ((resultM (sendDocument c5State exSendArgs)).2),
        e.ipAddress = none ∧ e.actionAuth = some []) ∧
      (∀ e ∈ insertedAudits ((resultM (sendDocument c5State exSendArgs)).2),
        e.ipAddress = none ∧ e.actionAuth = none)) :=
  ⟨c8_autosign_audits_no_ip.1 c5State exArgs
      (resultM (completeDocumentWithToken c5State exArgs)).1
      (resultM (completeDocumentWithToken c5State exArgs)).2
      (exSigner 1) (by rfl) (by rfl),
   c8_autosign_audits_no_ip.2 c5State exSendArgs
      (resultM (sendDocument c5State exSendArgs)).1
      (resultM (sendDocument c5State exSendArgs)).2 (by rfl)⟩
